import Mathlib

/-!
Shallow embedding of the schema-forge Schema Diff & Migration Engine
(diff engine, SQL code generator, statement splitter, DDL parser,
operation replayer) together with theorems about the specified
properties.
-/

namespace SchemaForge

/-! ## JavaScript string helpers

JS strings are modelled as Lean `String`/`List Char`.  JS `\s` and
`String.prototype.trim` are modelled with `Char.isWhitespace`
(space, tab, CR, LF), and `toLowerCase` with `Char.toLower`; both agree
with JS on the ASCII identifiers and SQL text this code manipulates. -/

def isWs (c : Char) : Bool := c.isWhitespace

def trimChars (l : List Char) : List Char :=
  ((l.dropWhile isWs).reverse.dropWhile isWs).reverse

/-- JS `String.prototype.trim`. -/
def jsTrim (s : String) : String := ⟨trimChars s.toList⟩

/-- JS `String.prototype.toLowerCase` (ASCII). -/
def jsToLower (s : String) : String := ⟨s.toList.map Char.toLower⟩

/-- JS `String.prototype.startsWith` / `endsWith` (modelled on the character
list, where kernel evaluation is direct). -/
def jsStartsWith (s pre : String) : Bool := pre.toList.isPrefixOf s.toList

def jsEndsWith (s suf : String) : Bool := suf.toList.isSuffixOf s.toList

/-- `.replace(/\s+/g, ' ')`: collapse each maximal whitespace run to one space.
`prevWs` records whether the previous character was part of a run already
replaced. -/
def collapseWsAux (prevWs : Bool) : List Char → List Char
  | [] => []
  | c :: rest =>
    if isWs c then
      (if prevWs then [] else [' ']) ++ collapseWsAux true rest
    else
      c :: collapseWsAux false rest

def collapseWs (l : List Char) : List Char := collapseWsAux false l

/-- `.replace(/\s*X\s*/g, "X")` for a single character `X`: delete whitespace
adjacent to each occurrence of `target`.  `pending` buffers (reversed) a
whitespace run not yet known to precede `target`; `afterTarget` drops the
run following an emitted `target`. -/
def stripAroundAux (target : Char) (pending : List Char) (afterTarget : Bool) :
    List Char → List Char
  | [] => pending.reverse
  | c :: rest =>
    if isWs c then
      if afterTarget then stripAroundAux target pending true rest
      else stripAroundAux target (c :: pending) false rest
    else if c = target then
      target :: stripAroundAux target [] true rest
    else
      pending.reverse ++ c :: stripAroundAux target [] false rest

def stripAround (target : Char) (l : List Char) : List Char :=
  stripAroundAux target [] false l

/-- src/core/diff.ts `normalizeColumnType`:
`type.toLowerCase().trim().replace(/\s+/g,' ').replace(/\s*\(\s*/g,'(').replace(/\s*,\s*/g,',').replace(/\s*\)\s*/g,')')`. -/
def normalizeColumnType (type : String) : String :=
  ⟨stripAround ')' (stripAround ',' (stripAround '('
      (collapseWs (trimChars (jsToLower type).toList))))⟩

/-! ## JS objects as insertion-ordered association lists

A JS `Record<string, T>` is modelled as a `List (String × T)` in key
insertion order, with unique keys.  `Object.keys` is the key list,
indexing is first-match lookup. -/

def lookupKey {α : Type} (k : String) : List (String × α) → Option α
  | [] => none
  | (k', v) :: rest => if k' = k then some v else lookupKey k rest

/-- `Array.from(new Set(l))`: deduplicate keeping first occurrences. -/
def jsSetDedupAux (seen : List String) : List String → List String
  | [] => []
  | k :: rest =>
    if seen.contains k then jsSetDedupAux seen rest
    else k :: jsSetDedupAux (k :: seen) rest

def jsSetDedup (l : List String) : List String := jsSetDedupAux [] l

/-- JS `Array.prototype.join(sep)`. -/
def joinWith (sep : String) : List String → String
  | [] => ""
  | [s] => s
  | s :: rest => s ++ sep ++ joinWith sep rest

/-- Lexicographic Bool-valued order on character lists (the model of
`localeCompare`). -/
def charListLe : List Char → List Char → Bool
  | [], _ => true
  | _ :: _, [] => false
  | c :: cs, d :: ds =>
    if c < d then true
    else if d < c then false
    else charListLe cs ds

/-- `Array.prototype.sort((a, b) => a.localeCompare(b))`, modelled with a
fixed lexicographic total order on strings (any fixed total order makes the
runs deterministic, which is all the diff engine relies on). -/
def sortNames (l : List String) : List String :=
  List.insertionSort (fun a b => charListLe a.toList b.toList = true) l

/-! ## Schema model (src/types/types.d.ts, as used by src/core/diff.ts)

Optional JS fields are `Option`s; an absent field and an explicit `null`
are both `none` (the code only distinguishes them through `??`/truthiness,
which treat both alike). -/

/-- `ForeignKey {table, column}`. -/
structure ForeignKey where
  table : String
  column : String
deriving DecidableEq, Repr

structure Column where
  name : String
  type : String
  primaryKey : Option Bool := none
  unique : Option Bool := none
  nullable : Option Bool := none
  default : Option String := none
  foreignKey : Option ForeignKey := none
deriving DecidableEq, Repr

structure Table where
  name : String
  columns : List Column
  primaryKey : Option String := none
deriving DecidableEq, Repr

structure DatabaseSchema where
  tables : List (String × Table)
deriving DecidableEq, Repr

structure StateColumn where
  type : String
  primaryKey : Option Bool := none
  unique : Option Bool := none
  nullable : Option Bool := none
  default : Option String := none
  foreignKey : Option ForeignKey := none
deriving DecidableEq, Repr

structure StateTable where
  columns : List (String × StateColumn)
  primaryKey : Option String := none
deriving DecidableEq, Repr

structure StateFile where
  version : Nat := 1
  tables : List (String × StateTable)
deriving DecidableEq, Repr

/-- Diff operation vocabulary (src/types, extended by the constraint and
default work recorded in src/core/diff.ts and the changesets). -/
inductive Operation where
  | create_table (table : Table)
  | drop_table (tableName : String)
  | column_type_changed (tableName columnName fromType toType : String)
  | column_unique_changed (tableName columnName : String) (fromU toU : Bool)
  | column_default_changed (tableName columnName : String)
      (fromDefault toDefault : Option String)
  | add_column (tableName : String) (column : Column)
  | drop_column (tableName columnName : String)
  | drop_primary_key_constraint (tableName : String)
  | add_primary_key_constraint (tableName columnName : String)
deriving DecidableEq, Repr

structure DiffResult where
  operations : List Operation
deriving DecidableEq, Repr

/-! ## Diff engine (src/core/diff.ts) -/

def getTableNamesFromState (state : StateFile) : List String :=
  jsSetDedup (state.tables.map Prod.fst)

def getTableNamesFromSchema (schema : DatabaseSchema) : List String :=
  jsSetDedup (schema.tables.map Prod.fst)

def getColumnNamesFromState (stateColumns : List (String × StateColumn)) : List String :=
  jsSetDedup (stateColumns.map Prod.fst)

def getColumnNamesFromSchema (dbColumns : List Column) : List String :=
  jsSetDedup (dbColumns.map Column.name)

def getSortedNames (names : List String) : List String := sortNames names

/-- `table.primaryKey ?? Object.entries(table.columns).find(([, c]) => c.primaryKey)?.[0] ?? null` -/
def resolveStatePrimaryKey (table : StateTable) : Option String :=
  match table.primaryKey with
  | some s => some s
  | none => (table.columns.find? (fun p => p.2.primaryKey = some true)).map Prod.fst

/-- `table.primaryKey ?? table.columns.find(c => c.primaryKey)?.name ?? null` -/
def resolveSchemaPrimaryKey (table : Table) : Option String :=
  match table.primaryKey with
  | some s => some s
  | none => (table.columns.find? (fun c => c.primaryKey = some true)).map Column.name

/-- Phase 1: create tables present in new but absent in old, A-Z.
(`newSchema.tables[tableName]` is present for every name drawn from the key
set; the `Option.map` keeps the definition total.) -/
def diffPhase1 (oldState : StateFile) (newSchema : DatabaseSchema) : List Operation :=
  (getSortedNames (getTableNamesFromSchema newSchema)).filterMap fun tableName =>
    if (getTableNamesFromState oldState).contains tableName then none
    else (lookupKey tableName newSchema.tables).map fun t => .create_table t

def commonTableNames (oldState : StateFile) (newSchema : DatabaseSchema) : List String :=
  (getSortedNames (getTableNamesFromSchema newSchema)).filter fun tableName =>
    (getTableNamesFromState oldState).contains tableName

/-- Phase 2: column type changes for columns present in both, in the new
table's declared column order. -/
def diffPhase2 (oldState : StateFile) (newSchema : DatabaseSchema) : List Operation :=
  (commonTableNames oldState newSchema).flatMap fun tableName =>
    match lookupKey tableName newSchema.tables, lookupKey tableName oldState.tables with
    | some newTable, some oldTable =>
      newTable.columns.filterMap fun column =>
        match lookupKey column.name oldTable.columns with
        | none => none
        | some previousColumn =>
          if normalizeColumnType previousColumn.type ≠ normalizeColumnType column.type then
            some (.column_type_changed tableName column.name previousColumn.type column.type)
          else none
    | _, _ => []

/-- Phase 3: drop PK constraints for changed/removed primary keys. -/
def diffPhase3 (oldState : StateFile) (newSchema : DatabaseSchema) : List Operation :=
  (commonTableNames oldState newSchema).filterMap fun tableName =>
    match lookupKey tableName newSchema.tables, lookupKey tableName oldState.tables with
    | some newTable, some oldTable =>
      match resolveStatePrimaryKey oldTable with
      | none => none
      | some previousPrimaryKey =>
        if some previousPrimaryKey ≠ resolveSchemaPrimaryKey newTable then
          some (.drop_primary_key_constraint tableName)
        else none
    | _, _ => none

/-- Phase 4: unique flag changes for existing columns, schema order. -/
def diffPhase4 (oldState : StateFile) (newSchema : DatabaseSchema) : List Operation :=
  (commonTableNames oldState newSchema).flatMap fun tableName =>
    match lookupKey tableName newSchema.tables, lookupKey tableName oldState.tables with
    | some newTable, some oldTable =>
      newTable.columns.filterMap fun column =>
        match lookupKey column.name oldTable.columns with
        | none => none
        | some previousColumn =>
          let previousUnique := previousColumn.unique.getD false
          let currentUnique := column.unique.getD false
          if previousUnique ≠ currentUnique then
            some (.column_unique_changed tableName column.name previousUnique currentUnique)
          else none
    | _, _ => []

/-- Phase 5: add columns present in new but not in old, declared order. -/
def diffPhase5 (oldState : StateFile) (newSchema : DatabaseSchema) : List Operation :=
  (commonTableNames oldState newSchema).flatMap fun tableName =>
    match lookupKey tableName newSchema.tables, lookupKey tableName oldState.tables with
    | some newTable, some oldTable =>
      newTable.columns.filterMap fun column =>
        if (getColumnNamesFromState oldTable.columns).contains column.name then none
        else some (.add_column tableName column)
    | _, _ => []

/-- Phase 6: add PK constraints for added/changed primary keys. -/
def diffPhase6 (oldState : StateFile) (newSchema : DatabaseSchema) : List Operation :=
  (commonTableNames oldState newSchema).filterMap fun tableName =>
    match lookupKey tableName newSchema.tables, lookupKey tableName oldState.tables with
    | some newTable, some oldTable =>
      match resolveSchemaPrimaryKey newTable with
      | none => none
      | some currentPrimaryKey =>
        if resolveStatePrimaryKey oldTable ≠ some currentPrimaryKey then
          some (.add_primary_key_constraint tableName currentPrimaryKey)
        else none
    | _, _ => none

/-- Phase 7: drop columns in the persisted state's key order. -/
def diffPhase7 (oldState : StateFile) (newSchema : DatabaseSchema) : List Operation :=
  (commonTableNames oldState newSchema).flatMap fun tableName =>
    match lookupKey tableName newSchema.tables, lookupKey tableName oldState.tables with
    | some newTable, some oldTable =>
      (oldTable.columns.map Prod.fst).filterMap fun columnName =>
        if (getColumnNamesFromSchema newTable.columns).contains columnName then none
        else some (.drop_column tableName columnName)
    | _, _ => []

/-- Phase 8: drop tables present in old but absent in new, A-Z. -/
def diffPhase8 (oldState : StateFile) (newSchema : DatabaseSchema) : List Operation :=
  (getSortedNames (getTableNamesFromState oldState)).filterMap fun tableName =>
    if (getTableNamesFromSchema newSchema).contains tableName then none
    else some (.drop_table tableName)

/-- src/core/diff.ts `diffSchemas`: the eight phases, in order. -/
def diffSchemas (oldState : StateFile) (newSchema : DatabaseSchema) : DiffResult :=
  { operations :=
      diffPhase1 oldState newSchema ++ diffPhase2 oldState newSchema ++
      diffPhase3 oldState newSchema ++ diffPhase4 oldState newSchema ++
      diffPhase5 oldState newSchema ++ diffPhase6 oldState newSchema ++
      diffPhase7 oldState newSchema ++ diffPhase8 oldState newSchema }

/-- Kind test: is the operation a `drop_primary_key_constraint`? -/
def isDropPkOp : Operation → Bool
  | .drop_primary_key_constraint _ => true
  | _ => false

/-- Kind test: is the operation an `add_column`? -/
def isAddColumnOp : Operation → Bool
  | .add_column _ _ => true
  | _ => false

/-- Kind test: is the operation an `add_primary_key_constraint`? -/
def isAddPkOp : Operation → Bool
  | .add_primary_key_constraint _ _ => true
  | _ => false

/-! ## Identifier and default-expression normalization (src/core/normalize.ts) -/

def isLowerAlnum (c : Char) : Bool :=
  ('a' ≤ c && c ≤ 'z') || ('0' ≤ c && c ≤ '9')

/-- `.replace(/[^a-z0-9]+/g, '_')`: each maximal run of characters outside
`[a-z0-9]` becomes a single underscore. -/
def underscoreBadRunsAux (prevBad : Bool) : List Char → List Char
  | [] => []
  | c :: rest =>
    if isLowerAlnum c then c :: underscoreBadRunsAux false rest
    else (if prevBad then [] else ['_']) ++ underscoreBadRunsAux true rest

/-- `.replace(/_+/g, '_')`. -/
def collapseUnderscoreAux (prev : Bool) : List Char → List Char
  | [] => []
  | c :: rest =>
    if c = '_' then
      (if prev then [] else ['_']) ++ collapseUnderscoreAux true rest
    else c :: collapseUnderscoreAux false rest

/-- src/core/normalize.ts `normalizeIdent`. -/
def normalizeIdent (input : String) : String :=
  let step1 := underscoreBadRunsAux false (jsToLower (jsTrim input)).toList
  let step2 := collapseUnderscoreAux false step1
  ⟨(((step2.dropWhile (· = '_')).reverse.dropWhile (· = '_')).reverse)⟩

def pkName (table : String) : String := "pk_" ++ normalizeIdent table

def uqName (table column : String) : String :=
  "uq_" ++ normalizeIdent table ++ "_" ++ normalizeIdent column

def legacyPkName (table : String) : String := normalizeIdent table ++ "_pkey"

def legacyUqName (table column : String) : String :=
  normalizeIdent table ++ "_" ++ normalizeIdent column ++ "_key"

/-- Append a pending space to the (reversed) result exactly when the source
does: `pendingSpace && result.length > 0 && result[last] !== ' '`. -/
def flushPendingSpace (pend : Bool) (acc : List Char) : List Char :=
  if pend && !acc.isEmpty && acc.head? ≠ some ' ' then ' ' :: acc else acc

/-- normalize.ts `normalizeSpacesOutsideQuotes` (the accumulator is kept
reversed; the trailing `.trim()` is applied by the wrapper). -/
def normalizeSpacesAux (inS inD pend : Bool) (acc : List Char) :
    List Char → List Char
  | [] => acc.reverse
  | c :: rest =>
    if c = '\'' && !inD then
      normalizeSpacesAux (!inS) inD false (c :: flushPendingSpace pend acc) rest
    else if c = '"' && !inS then
      normalizeSpacesAux inS (!inD) false (c :: flushPendingSpace pend acc) rest
    else if !inS && !inD && isWs c then
      normalizeSpacesAux inS inD true acc rest
    else
      normalizeSpacesAux inS inD false (c :: flushPendingSpace pend acc) rest

def normalizeSpacesOutsideQuotes (l : List Char) : List Char :=
  trimChars (normalizeSpacesAux false false false [] l)

/-- normalize.ts `normalizePunctuationOutsideQuotes`.  `skip` models the
source's lookahead that swallows the literal spaces following `(`/`)`/`,`;
dropping spaces from the reversed accumulator models the
`while (result.endsWith(' '))` loop. -/
def normalizePunctAux (inS inD skip : Bool) (acc : List Char) :
    List Char → List Char
  | [] => acc.reverse
  | c :: rest =>
    if skip && c = ' ' then
      normalizePunctAux inS inD true acc rest
    else if c = '\'' && !inD then
      normalizePunctAux (!inS) inD false (c :: acc) rest
    else if c = '"' && !inS then
      normalizePunctAux inS (!inD) false (c :: acc) rest
    else if !inS && !inD && (c = '(' || c = ')') then
      normalizePunctAux inS inD true (c :: acc.dropWhile (· = ' ')) rest
    else if !inS && !inD && c = ',' then
      normalizePunctAux inS inD true (' ' :: ',' :: acc.dropWhile (· = ' ')) rest
    else
      normalizePunctAux inS inD false (c :: acc) rest

def normalizePunctuationOutsideQuotes (l : List Char) : List Char :=
  normalizePunctAux false false false [] l

def isWordChar (c : Char) : Bool :=
  ('a' ≤ c && c ≤ 'z') || ('A' ≤ c && c ≤ 'Z') || ('0' ≤ c && c ≤ '9') || c = '_'

/-- Case-insensitive literal match: returns the remainder after `pat`. -/
def dropPrefixCI : List Char → List Char → Option (List Char)
  | [], l => some l
  | _ :: _, [] => none
  | p :: ps, c :: cs => if c.toLower = p.toLower then dropPrefixCI ps cs else none

/-- Match `name\s*\(\s*\)` (case-insensitive) at the head of the input,
returning the remainder. -/
def matchFnCall (fname : List Char) (l : List Char) : Option (List Char) :=
  match dropPrefixCI fname l with
  | none => none
  | some rest =>
    match (rest.dropWhile isWs) with
    | '(' :: rest2 =>
      match (rest2.dropWhile isWs) with
      | ')' :: rest3 => some rest3
      | _ => none
    | _ => none

/-- One global pass of `.replace(/\bNAME\s*\(\s*\)/gi, "NAME()")`: `prevWord`
tracks whether the previous character was a word character (for `\b`). -/
def applyFnAux (fname : List Char) : Nat → Bool → List Char → List Char
  | 0, _, l => l
  | _ + 1, _, [] => []
  | fuel + 1, prevWord, c :: rest =>
    if !prevWord then
      match matchFnCall fname (c :: rest) with
      | some rem => fname ++ '(' :: ')' :: applyFnAux fname fuel false rem
      | none => c :: applyFnAux fname fuel (isWordChar c) rest
    else
      c :: applyFnAux fname fuel (isWordChar c) rest

/-- The body of normalize.ts `flushBuffer`: canonicalize `now()` then
`gen_random_uuid()`. -/
def canonKnownFns (buffer : List Char) : List Char :=
  let step1 := applyFnAux "now".toList buffer.length false buffer
  applyFnAux "gen_random_uuid".toList step1.length false step1

/-- normalize.ts `normalizeKnownFunctionsOutsideQuotes`; the buffer is empty
whenever the scanner is inside a quoted region, so in-quote characters can be
emitted directly. -/
def normalizeKnownFnsAux (inS inD : Bool) (buffer : List Char) :
    List Char → List Char
  | [] => canonKnownFns buffer
  | c :: rest =>
    if c = '\'' && !inD then
      canonKnownFns buffer ++ c :: normalizeKnownFnsAux (!inS) inD [] rest
    else if c = '"' && !inS then
      canonKnownFns buffer ++ c :: normalizeKnownFnsAux inS (!inD) [] rest
    else if inS || inD then
      c :: normalizeKnownFnsAux inS inD buffer rest
    else
      normalizeKnownFnsAux inS inD (buffer ++ [c]) rest

def normalizeKnownFunctionsOutsideQuotes (l : List Char) : List Char :=
  normalizeKnownFnsAux false false [] l

/-- normalize.ts `normalizeDefault`. -/
def normalizeDefault (expr : Option String) : Option String :=
  match expr with
  | none => none
  | some e =>
    let trimmed := jsTrim e
    if trimmed.toList.isEmpty then none
    else
      some ⟨normalizeKnownFunctionsOutsideQuotes
        (normalizePunctuationOutsideQuotes
          (normalizeSpacesOutsideQuotes trimmed.toList))⟩

/-! ## Spec-modelled state derivation and default-change detection

The released package delegates `schemaToState` and the default-change
detection to `@xubylele/schema-forge-core`, whose source is not in this
repository; only the re-exporting declaration (src/domain) and the tests
(test/default-change.test.ts) are.  Both are modelled from the spec. -/

/-- Modelled from the spec: `schemaToState` (re-exported by src/domain.ts from
schema-forge-core, implementation absent from src/).  Per spec §3 the
persisted state is re-derived wholesale from a DeclaredSchema: same table
keys, columns keyed by name carrying the same type, primaryKey, unique,
nullable and default attributes, and the table-level primaryKey field
carried over. -/
def toStateColumn (c : Column) : StateColumn :=
  { type := c.type
  , primaryKey := c.primaryKey
  , unique := c.unique
  , nullable := c.nullable
  , default := c.default
  , foreignKey := c.foreignKey }

def toStateTable (t : Table) : StateTable :=
  { columns := t.columns.map fun c => (c.name, toStateColumn c)
  , primaryKey := t.primaryKey }

def schemaToState (schema : DatabaseSchema) : StateFile :=
  { version := 1
  , tables := schema.tables.map fun p => (p.1, toStateTable p.2) }

/-- Modelled from the spec: the default-change phase of the released diff
engine (schema-forge-core, absent from src/; exercised by
test/default-change.test.ts).  Per spec §4.4 it is an additional comparison
per existing column, interleaved logically with phase 2: the raw defaults of
a column present in both sides are compared under `normalizeDefault`
equality and a `column_default_changed` operation carrying the raw values is
emitted when they differ. -/
def diffDefaultsPhase (oldState : StateFile) (newSchema : DatabaseSchema) : List Operation :=
  (commonTableNames oldState newSchema).flatMap fun tableName =>
    match lookupKey tableName newSchema.tables, lookupKey tableName oldState.tables with
    | some newTable, some oldTable =>
      newTable.columns.filterMap fun column =>
        match lookupKey column.name oldTable.columns with
        | none => none
        | some previousColumn =>
          if normalizeDefault previousColumn.default ≠ normalizeDefault column.default then
            some (.column_default_changed tableName column.name
              previousColumn.default column.default)
          else none
    | _, _ => []

/-- Modelled from the spec: `diffSchemas` as released (schema-forge-core),
i.e. the eight phases of src/core/diff.ts with the default-change comparison
interleaved after phase 2. -/
def diffSchemasWithDefaults (oldState : StateFile) (newSchema : DatabaseSchema) : DiffResult :=
  { operations :=
      diffPhase1 oldState newSchema ++ diffPhase2 oldState newSchema ++
      diffDefaultsPhase oldState newSchema ++
      diffPhase3 oldState newSchema ++ diffPhase4 oldState newSchema ++
      diffPhase5 oldState newSchema ++ diffPhase6 oldState newSchema ++
      diffPhase7 oldState newSchema ++ diffPhase8 oldState newSchema }

/-! ## SQL code generator (src/generator/sql-generator.ts) -/

inductive Provider where
  | supabase
  | postgres
deriving DecidableEq, Repr

structure SqlConfig where
  uuidDefault : Option String := none
  timestampDefault : Option String := none
deriving DecidableEq, Repr

/-- JS truthiness of an optional boolean field. -/
def jsTruthyBool (b : Option Bool) : Bool := b = some true

def generateColumnDefinition (column : Column) (provider : Provider) : String :=
  let parts := [column.name, column.type]
  let parts :=
    match column.foreignKey with
    | some fk => parts ++ ["references " ++ fk.table ++ "(" ++ fk.column ++ ")"]
    | none => parts
  let parts := if jsTruthyBool column.primaryKey then parts ++ ["primary key"] else parts
  let parts := if jsTruthyBool column.unique then parts ++ ["unique"] else parts
  let parts := if column.nullable = some false then parts ++ ["not null"] else parts
  let parts :=
    match column.default with
    | some d => parts ++ ["default " ++ d]
    | none =>
      if column.type = "uuid" && jsTruthyBool column.primaryKey && provider = .supabase then
        parts ++ ["default gen_random_uuid()"]
      else parts
  joinWith " " parts

def generateCreateTable (table : Table) (provider : Provider) : String :=
  let columnDefs := table.columns.map fun col => generateColumnDefinition col provider
  let lines := ["CREATE TABLE " ++ table.name ++ " ("]
  let n := columnDefs.length
  let lines := lines ++ (columnDefs.enum.map fun p =>
    "  " ++ p.2 ++ (if p.1 = n - 1 then "" else ","))
  let lines := lines ++ [");"]
  joinWith "\n" lines

def generateDropTable (tableName : String) : String :=
  "DROP TABLE " ++ tableName ++ ";"

def generateAddColumn (tableName : String) (column : Column) (provider : Provider) : String :=
  "ALTER TABLE " ++ tableName ++ " ADD COLUMN " ++
    generateColumnDefinition column provider ++ ";"

def generateDropColumn (tableName columnName : String) : String :=
  "ALTER TABLE " ++ tableName ++ " DROP COLUMN " ++ columnName ++ ";"

def generateAlterColumnType (tableName columnName newType : String) : String :=
  "ALTER TABLE " ++ tableName ++ " ALTER COLUMN " ++ columnName ++ " TYPE " ++
    newType ++ " USING " ++ columnName ++ "::" ++ newType ++ ";"

def generateAddUniqueConstraint (tableName columnName : String) : String :=
  "ALTER TABLE " ++ tableName ++ " ADD CONSTRAINT " ++ uqName tableName columnName ++
    " UNIQUE (" ++ columnName ++ ");"

def generateDropConstraintStatements (tableName : String) (constraintNames : List String) : String :=
  joinWith "\n"
    ((jsSetDedup constraintNames).map fun constraintName =>
      "ALTER TABLE " ++ tableName ++ " DROP CONSTRAINT IF EXISTS " ++ constraintName ++ ";")

def generateDropUniqueConstraint (tableName columnName : String) : String :=
  generateDropConstraintStatements tableName
    [uqName tableName columnName, legacyUqName tableName columnName]

def generateDropPrimaryKeyConstraint (tableName : String) : String :=
  generateDropConstraintStatements tableName [pkName tableName, legacyPkName tableName]

def generateAddPrimaryKeyConstraint (tableName columnName : String) : String :=
  "ALTER TABLE " ++ tableName ++ " ADD CONSTRAINT " ++ pkName tableName ++
    " PRIMARY KEY (" ++ columnName ++ ");"

/-- sql-generator.ts `generateOperation`.  The `column_default_changed` case
is modelled from spec §4.5 (`SET DEFAULT expr` / `DROP DEFAULT`): the src
generator predates that operation kind (its switch would yield a falsy value
that `generateSql` filters out); the released generator lives in
schema-forge-core, absent from src/. -/
def generateOperation (operation : Operation) (provider : Provider) : String :=
  match operation with
  | .create_table table => generateCreateTable table provider
  | .drop_table tableName => generateDropTable tableName
  | .column_type_changed tableName columnName _ toType =>
    generateAlterColumnType tableName columnName toType
  | .add_column tableName column => generateAddColumn tableName column provider
  | .drop_column tableName columnName => generateDropColumn tableName columnName
  | .column_unique_changed tableName columnName _ toU =>
    if toU then generateAddUniqueConstraint tableName columnName
    else generateDropUniqueConstraint tableName columnName
  | .column_default_changed tableName columnName _ toDefault =>
    match toDefault with
    | some d =>
      "ALTER TABLE " ++ tableName ++ " ALTER COLUMN " ++ columnName ++
        " SET DEFAULT " ++ d ++ ";"
    | none =>
      "ALTER TABLE " ++ tableName ++ " ALTER COLUMN " ++ columnName ++
        " DROP DEFAULT;"
  | .drop_primary_key_constraint tableName => generateDropPrimaryKeyConstraint tableName
  | .add_primary_key_constraint tableName columnName =>
    generateAddPrimaryKeyConstraint tableName columnName

def generateSql (diff : DiffResult) (provider : Provider) : String :=
  joinWith "\n\n"
    ((diff.operations.map fun operation => generateOperation operation provider).filter
      fun sql => sql ≠ "")

/-! ## SqlOp vocabulary (src/types/sql.d.ts)

`ParsedColumn.default` is `string | null | undefined` in the source; `null`
and `undefined` are both modelled as `none` (the replayer only reads the
field back through spreads and assignments, which treat both alike for the
reconstructed schema). -/

structure ParsedColumn where
  name : String
  type : String
  nullable : Bool
  default : Option String := none
  unique : Option Bool := none
  primaryKey : Option Bool := none
deriving DecidableEq, Repr

inductive ConstraintType where
  | PRIMARY_KEY
  | UNIQUE
deriving DecidableEq, Repr

def ConstraintType.asString : ConstraintType → String
  | .PRIMARY_KEY => "PRIMARY_KEY"
  | .UNIQUE => "UNIQUE"

structure ParsedConstraint where
  type : ConstraintType
  name : Option String := none
  columns : List String
deriving DecidableEq, Repr

inductive SqlOp where
  | CREATE_TABLE (table : String) (columns : List ParsedColumn)
      (constraints : List ParsedConstraint)
  | ADD_COLUMN (table : String) (column : ParsedColumn)
  | ALTER_COLUMN_TYPE (table column toType : String)
  | SET_NOT_NULL (table column : String)
  | DROP_NOT_NULL (table column : String)
  | SET_DEFAULT (table column expr : String)
  | DROP_DEFAULT (table column : String)
  | ADD_CONSTRAINT (table : String) (constraint : ParsedConstraint)
  | DROP_CONSTRAINT (table name : String)
  | DROP_COLUMN (table column : String)
  | DROP_TABLE (table : String)
deriving DecidableEq, Repr

structure ParseWarning where
  statement : String
  reason : String
deriving DecidableEq, Repr

/-! ## Operation replayer (src/core/sql/apply-ops.ts) -/

/-- JS truthiness of `table.primaryKey` (a string field): `""`, `null` and
`undefined` are falsy. -/
def jsTruthyStr (s : Option String) : Bool :=
  match s with
  | some v => v ≠ ""
  | none => false

def toSchemaColumn (column : ParsedColumn) : Column :=
  { name := column.name
  , type := column.type
  , nullable := some column.nullable
  , default := column.default
  , unique := column.unique
  , primaryKey := column.primaryKey }

/-- Mutate the first element satisfying `p` (JS `find` + in-place update). -/
def updateFirst {α : Type} (p : α → Bool) (f : α → α) : List α → List α
  | [] => []
  | a :: rest => if p a then f a :: rest else a :: updateFirst p f rest

/-- apply-ops.ts `applySingleColumnConstraint`; `none` means the source
returned `false` (constraint not applied). -/
def applySingleColumnConstraint (table : Table) (constraint : ParsedConstraint) :
    Option Table :=
  match constraint.columns with
  | [target] =>
    match table.columns.find? (fun column => column.name = target) with
    | none => none
    | some targetColumn =>
      match constraint.type with
      | .PRIMARY_KEY =>
        some { table with
          primaryKey := some targetColumn.name
        , columns := updateFirst (fun c => c.name = target)
            (fun c => { c with primaryKey := some true, nullable := some false })
            table.columns }
      | .UNIQUE =>
        some { table with
          columns := updateFirst (fun c => c.name = target)
            (fun c => { c with unique := some true }) table.columns }
  | _ => none

/-- apply-ops.ts `clearConstraintByName`. -/
def clearConstraintByName (table : Table) (name : String) : Table :=
  if jsEndsWith name "_pkey" || jsStartsWith name "pk_" then
    if jsTruthyStr table.primaryKey then
      { table with
        primaryKey := none
      , columns := updateFirst (fun c => some c.name = table.primaryKey)
          (fun c => { c with primaryKey := some false }) table.columns }
    else table
  else if jsEndsWith name "_key" || jsStartsWith name "uq_" then
    { table with
      columns := table.columns.map fun column =>
        if column.unique = some true then { column with unique := some false }
        else column }
  else table

/-- JS object key assignment: replace in place if present, else append. -/
def setKey : List (String × Table) → String → Table → List (String × Table)
  | [], k, v => [(k, v)]
  | (k', v') :: rest, k, v =>
    if k' = k then (k, v) :: rest else (k', v') :: setKey rest k v

/-- JS `delete tables[name]`. -/
def removeKey : List (String × Table) → String → List (String × Table)
  | [], _ => []
  | (k', v') :: rest, k =>
    if k' = k then rest else (k', v') :: removeKey rest k

/-- apply-ops.ts `getOrCreateTable` (returns the table together with the map
in which it now exists). -/
def getOrCreateTable (tables : List (String × Table)) (name : String) :
    Table × List (String × Table) :=
  match lookupKey name tables with
  | some t => (t, tables)
  | none =>
    let t : Table := { name := name, columns := [] }
    (t, tables ++ [(name, t)])

/-- One iteration of the `for (const op of ops)` loop in `applySqlOps`:
returns the updated table map and the warnings this operation pushed. -/
def applySqlOp (tables : List (String × Table)) (op : SqlOp) :
    List (String × Table) × List ParseWarning :=
  match op with
  | .CREATE_TABLE tname columns constraints =>
    let table : Table := { name := tname, columns := columns.map toSchemaColumn }
    let table := { table with
      primaryKey := table.columns.foldl
        (fun acc column => if jsTruthyBool column.primaryKey then some column.name else acc)
        table.primaryKey }
    let step := constraints.foldl
      (fun (acc : Table × List ParseWarning) constraint =>
        match applySingleColumnConstraint acc.1 constraint with
        | some t' => (t', acc.2)
        | none =>
          (acc.1, acc.2 ++ [{ statement := "CREATE TABLE " ++ tname
                            , reason := "Constraint " ++ constraint.type.asString ++
                                (match constraint.name with
                                 | some n => " (" ++ n ++ ")"
                                 | none => "") ++
                                " is unsupported for schema reconstruction" }]))
      (table, [])
    (setKey tables tname step.1, step.2)
  | .ADD_COLUMN tname column =>
    let got := getOrCreateTable tables tname
    let table := got.1
    let table := { table with
      columns := (table.columns.filter fun c => c.name ≠ column.name) ++
        [toSchemaColumn column] }
    let table :=
      if jsTruthyBool column.primaryKey then { table with primaryKey := some column.name }
      else table
    (setKey got.2 tname table, [])
  | .ALTER_COLUMN_TYPE tname cname toType =>
    match lookupKey tname tables with
    | none => (tables, [])
    | some table =>
      let cols := updateFirst (fun c => c.name = cname)
        (fun c => { c with type := toType }) table.columns
      (setKey tables tname { table with columns := cols }, [])
  | .SET_NOT_NULL tname cname =>
    match lookupKey tname tables with
    | none => (tables, [])
    | some table =>
      let cols := updateFirst (fun c => c.name = cname)
        (fun c => { c with nullable := some false }) table.columns
      (setKey tables tname { table with columns := cols }, [])
  | .DROP_NOT_NULL tname cname =>
    match lookupKey tname tables with
    | none => (tables, [])
    | some table =>
      let cols := updateFirst (fun c => c.name = cname)
        (fun c => { c with nullable := some true }) table.columns
      (setKey tables tname { table with columns := cols }, [])
  | .SET_DEFAULT tname cname expr =>
    match lookupKey tname tables with
    | none => (tables, [])
    | some table =>
      let cols := updateFirst (fun c => c.name = cname)
        (fun c => { c with default := some expr }) table.columns
      (setKey tables tname { table with columns := cols }, [])
  | .DROP_DEFAULT tname cname =>
    match lookupKey tname tables with
    | none => (tables, [])
    | some table =>
      let cols := updateFirst (fun c => c.name = cname)
        (fun c => { c with default := none }) table.columns
      (setKey tables tname { table with columns := cols }, [])
  | .ADD_CONSTRAINT tname constraint =>
    match lookupKey tname tables with
    | none => (tables, [])
    | some table =>
      match applySingleColumnConstraint table constraint with
      | some t' => (setKey tables tname t', [])
      | none =>
        (tables,
          [{ statement := "ALTER TABLE " ++ tname ++ " ADD CONSTRAINT " ++
              (constraint.name.getD "<unnamed>")
           , reason := "Constraint " ++ constraint.type.asString ++
              " is unsupported for schema reconstruction" }])
  | .DROP_CONSTRAINT tname name =>
    match lookupKey tname tables with
    | none => (tables, [])
    | some table => (setKey tables tname (clearConstraintByName table name), [])
  | .DROP_COLUMN tname cname =>
    match lookupKey tname tables with
    | none => (tables, [])
    | some table =>
      let table := { table with columns := table.columns.filter fun c => c.name ≠ cname }
      let table :=
        if table.primaryKey = some cname then { table with primaryKey := none }
        else table
      (setKey tables tname table, [])
  | .DROP_TABLE tname => (removeKey tables tname, [])

structure ApplySqlOpsResult where
  schema : DatabaseSchema
  warnings : List ParseWarning
deriving DecidableEq, Repr

def applySqlOpsFrom (tables : List (String × Table)) (warnings : List ParseWarning) :
    List SqlOp → List (String × Table) × List ParseWarning
  | [] => (tables, warnings)
  | op :: rest =>
    let step := applySqlOp tables op
    applySqlOpsFrom step.1 (warnings ++ step.2) rest

/-- apply-ops.ts `applySqlOps`. -/
def applySqlOps (ops : List SqlOp) : ApplySqlOpsResult :=
  let result := applySqlOpsFrom [] [] ops
  { schema := { tables := result.1 }, warnings := result.2 }

/-! ## Statement splitter (src/core/sql/split-statements.ts)

The source advances an index over the input, consuming one, two, or
`dollarTag.length` characters per iteration; the embedding recurses on a
fuel counter (one unit per loop iteration), which `splitSqlStatements`
instantiates with the input length — enough because every iteration
consumes at least one character.  `current` is the accumulated statement,
kept reversed. -/

def isTagStartChar (c : Char) : Bool :=
  ('a' ≤ c && c ≤ 'z') || ('A' ≤ c && c ≤ 'Z') || c = '_'

def isTagChar (c : Char) : Bool :=
  isTagStartChar c || ('0' ≤ c && c ≤ '9')

/-- `remainder.match(/^\$[a-zA-Z_][a-zA-Z0-9_]*\$|^\$\$/)`: the full matched
text, if any. -/
def matchDollarTag (l : List Char) : Option (List Char) :=
  match l with
  | '$' :: rest =>
    let alt1 : Option (List Char) :=
      match rest with
      | c :: rest2 =>
        if isTagStartChar c then
          let run := rest2.takeWhile isTagChar
          match rest2.dropWhile isTagChar with
          | '$' :: _ => some ('$' :: c :: (run ++ ['$']))
          | _ => none
        else none
      | [] => none
    match alt1 with
    | some tag => some tag
    | none =>
      match rest with
      | '$' :: _ => some ['$', '$']
      | _ => none
  | _ => none

/-- Push `current.trim()` onto the statement list when non-empty. -/
def pushStatement (statements : List String) (currentRev : List Char) : List String :=
  let statement := trimChars currentRev.reverse
  if statement.isEmpty then statements else statements ++ [⟨statement⟩]

structure SplitState where
  inSingleQuote : Bool := false
  inDoubleQuote : Bool := false
  inLineComment : Bool := false
  inBlockComment : Bool := false
  dollarTag : Option (List Char) := none
deriving DecidableEq, Repr

/-- The `while (index < sql.length)` loop of `splitSqlStatements`. -/
def splitAux : Nat → SplitState → List Char → List String → List Char → List String
  | 0, _, currentRev, statements, _ => pushStatement statements currentRev
  | _ + 1, _, currentRev, statements, [] => pushStatement statements currentRev
  | fuel + 1, st, currentRev, statements, c :: rest =>
    if st.inLineComment then
      splitAux fuel
        (if c = '\n' then { st with inLineComment := false } else st)
        (c :: currentRev) statements rest
    else if st.inBlockComment then
      if c = '*' && rest.head? = some '/' then
        splitAux fuel { st with inBlockComment := false }
          ('/' :: c :: currentRev) statements rest.tail
      else splitAux fuel st (c :: currentRev) statements rest
    else if !st.inSingleQuote && !st.inDoubleQuote && st.dollarTag = none &&
        c = '-' && rest.head? = some '-' then
      splitAux fuel { st with inLineComment := true }
        ('-' :: '-' :: currentRev) statements rest.tail
    else if !st.inSingleQuote && !st.inDoubleQuote && st.dollarTag = none &&
        c = '/' && rest.head? = some '*' then
      splitAux fuel { st with inBlockComment := true }
        ('*' :: '/' :: currentRev) statements rest.tail
    else if !st.inDoubleQuote && st.dollarTag = none && c = '\'' then
      if st.inSingleQuote && rest.head? = some '\'' then
        splitAux fuel st ('\'' :: '\'' :: currentRev) statements rest.tail
      else
        splitAux fuel { st with inSingleQuote := !st.inSingleQuote }
          ('\'' :: currentRev) statements rest
    else if !st.inSingleQuote && st.dollarTag = none && c = '"' then
      if st.inDoubleQuote && rest.head? = some '"' then
        splitAux fuel st ('"' :: '"' :: currentRev) statements rest.tail
      else
        splitAux fuel { st with inDoubleQuote := !st.inDoubleQuote }
          ('"' :: currentRev) statements rest
    else if !st.inSingleQuote && !st.inDoubleQuote && st.dollarTag = none && c = '$' &&
        (matchDollarTag (c :: rest)).isSome then
      let tag := (matchDollarTag (c :: rest)).getD []
      splitAux fuel { st with dollarTag := some tag }
        (tag.reverse ++ currentRev) statements ((c :: rest).drop tag.length)
    else if !st.inSingleQuote && !st.inDoubleQuote && st.dollarTag ≠ none &&
        (st.dollarTag.getD []).isPrefixOf (c :: rest) then
      let tag := st.dollarTag.getD []
      splitAux fuel { st with dollarTag := none }
        (tag.reverse ++ currentRev) statements ((c :: rest).drop tag.length)
    else if !st.inSingleQuote && !st.inDoubleQuote && st.dollarTag = none && c = ';' then
      splitAux fuel st [] (pushStatement statements currentRev) rest
    else
      splitAux fuel st (c :: currentRev) statements rest

/-- split-statements.ts `splitSqlStatements`. -/
def splitSqlStatements (sql : String) : List String :=
  splitAux sql.toList.length {} [] [] sql.toList

/-! ## DDL statement parser (src/core/sql/parse-migration.ts)

The anchored JS regexes are translated matcher by matcher; every statement
fed to the parsers is `trim`med, so the `$` anchor is modelled as
end-of-input.  Patterns compiled without the `s` flag use `.`, which does
not match a newline: the corresponding matchers reject content containing
`'\n'`. -/

def COLUMN_CONSTRAINT_KEYWORDS : List String :=
  ["primary", "unique", "not", "null", "default", "constraint", "references", "check"]

/-- parse-migration.ts `normalizeSqlType` (same transform as the diff
engine's `normalizeColumnType`). -/
def normalizeSqlType (type : String) : String :=
  ⟨stripAround ')' (stripAround ',' (stripAround '('
      (collapseWs (jsToLower (jsTrim type)).toList)))⟩

/-- `.replace(/""/g, '"')`. -/
def unescapeDoubledQuotes : List Char → List Char
  | [] => []
  | '"' :: '"' :: rest => '"' :: unescapeDoubledQuotes rest
  | c :: rest => c :: unescapeDoubledQuotes rest

def unquoteIdentifier (value : String) : String :=
  let trimmed := jsTrim value
  if jsStartsWith trimmed "\"" && jsEndsWith trimmed "\"" && trimmed.length ≥ 2 then
    ⟨unescapeDoubledQuotes (trimmed.toList.drop 1).dropLast⟩
  else trimmed

def normalizeIdentifier (identifier : String) : String :=
  let parts := ((jsTrim identifier).splitOn ".").map unquoteIdentifier
  let parts := parts.filter fun p => p.length > 0
  let leaf :=
    match parts.getLast? with
    | some l => l
    | none => jsTrim identifier
  jsToLower leaf

/-- parse-migration.ts `removeSqlComments` (fuel: one unit per loop
iteration; each iteration consumes one or two characters). -/
def removeSqlCommentsAux : Nat → Bool → Bool → Bool → Bool → List Char →
    List Char → List Char
  | 0, _, _, _, _, accRev, _ => accRev.reverse
  | _ + 1, _, _, _, _, accRev, [] => accRev.reverse
  | fuel + 1, inS, inD, inLine, inBlock, accRev, c :: rest =>
    if inLine then
      if c = '\n' then removeSqlCommentsAux fuel inS inD false inBlock (c :: accRev) rest
      else removeSqlCommentsAux fuel inS inD true inBlock accRev rest
    else if inBlock then
      if c = '*' && rest.head? = some '/' then
        removeSqlCommentsAux fuel inS inD inLine false accRev rest.tail
      else removeSqlCommentsAux fuel inS inD inLine true accRev rest
    else if !inS && !inD && c = '-' && rest.head? = some '-' then
      removeSqlCommentsAux fuel inS inD true inBlock accRev rest.tail
    else if !inS && !inD && c = '/' && rest.head? = some '*' then
      removeSqlCommentsAux fuel inS inD inLine true accRev rest.tail
    else if c = '\'' && !inD then
      if inS && rest.head? = some '\'' then
        removeSqlCommentsAux fuel inS inD inLine inBlock ('\'' :: '\'' :: accRev) rest.tail
      else removeSqlCommentsAux fuel (!inS) inD inLine inBlock (c :: accRev) rest
    else if c = '"' && !inS then
      if inD && rest.head? = some '"' then
        removeSqlCommentsAux fuel inS inD inLine inBlock ('"' :: '"' :: accRev) rest.tail
      else removeSqlCommentsAux fuel inS (!inD) inLine inBlock (c :: accRev) rest
    else
      removeSqlCommentsAux fuel inS inD inLine inBlock (c :: accRev) rest

def removeSqlComments (statement : String) : String :=
  jsTrim ⟨removeSqlCommentsAux statement.toList.length false false false false [] statement.toList⟩

/-- parse-migration.ts `splitTopLevelComma`. -/
def splitTopLevelCommaAux : Nat → Nat → Bool → Bool → List Char → List String →
    List Char → List String
  | 0, _, _, _, currentRev, parts, _ =>
    let tail := trimChars currentRev.reverse
    if tail.isEmpty then parts else parts ++ [⟨tail⟩]
  | _ + 1, _, _, _, currentRev, parts, [] =>
    let tail := trimChars currentRev.reverse
    if tail.isEmpty then parts else parts ++ [⟨tail⟩]
  | fuel + 1, depth, inS, inD, currentRev, parts, c :: rest =>
    if c = '\'' && !inD then
      if inS && rest.head? = some '\'' then
        splitTopLevelCommaAux fuel depth inS inD ('\'' :: '\'' :: currentRev) parts rest.tail
      else splitTopLevelCommaAux fuel depth (!inS) inD (c :: currentRev) parts rest
    else if c = '"' && !inS then
      if inD && rest.head? = some '"' then
        splitTopLevelCommaAux fuel depth inS inD ('"' :: '"' :: currentRev) parts rest.tail
      else splitTopLevelCommaAux fuel depth inS (!inD) (c :: currentRev) parts rest
    else if !inS && !inD && c = '(' then
      splitTopLevelCommaAux fuel (depth + 1) inS inD (c :: currentRev) parts rest
    else if !inS && !inD && c = ')' then
      splitTopLevelCommaAux fuel (depth - 1) inS inD (c :: currentRev) parts rest
    else if !inS && !inD && c = ',' && depth = 0 then
      let segment := trimChars currentRev.reverse
      splitTopLevelCommaAux fuel depth inS inD []
        (if segment.isEmpty then parts else parts ++ [⟨segment⟩]) rest
    else
      splitTopLevelCommaAux fuel depth inS inD (c :: currentRev) parts rest

def splitTopLevelComma (input : String) : List String :=
  splitTopLevelCommaAux input.toList.length 0 false false [] [] input.toList

/-- parse-migration.ts `tokenize`. -/
def tokenizeAux : Nat → Nat → Bool → Bool → List Char → List String →
    List Char → List String
  | 0, _, _, _, currentRev, tokens, _ =>
    if currentRev.isEmpty then tokens else tokens ++ [⟨currentRev.reverse⟩]
  | _ + 1, _, _, _, currentRev, tokens, [] =>
    if currentRev.isEmpty then tokens else tokens ++ [⟨currentRev.reverse⟩]
  | fuel + 1, depth, inS, inD, currentRev, tokens, c :: rest =>
    if c = '\'' && !inD then
      if inS && rest.head? = some '\'' then
        tokenizeAux fuel depth inS inD ('\'' :: '\'' :: currentRev) tokens rest.tail
      else tokenizeAux fuel depth (!inS) inD (c :: currentRev) tokens rest
    else if c = '"' && !inS then
      if inD && rest.head? = some '"' then
        tokenizeAux fuel depth inS inD ('"' :: '"' :: currentRev) tokens rest.tail
      else tokenizeAux fuel depth inS (!inD) (c :: currentRev) tokens rest
    else if !inS && !inD then
      let depth' := if c = '(' then depth + 1 else if c = ')' then depth - 1 else depth
      if isWs c && depth' = 0 then
        tokenizeAux fuel depth' inS inD []
          (if currentRev.isEmpty then tokens else tokens ++ [⟨currentRev.reverse⟩]) rest
      else tokenizeAux fuel depth' inS inD (c :: currentRev) tokens rest
    else
      tokenizeAux fuel depth inS inD (c :: currentRev) tokens rest

def tokenize (segment : String) : List String :=
  tokenizeAux segment.toList.length 0 false false [] [] segment.toList

/-- The `default` branch of `parseColumnDefinition`: collect expression
tokens until the next recognized constraint keyword. -/
def takeDefaultTokens : List String → List String × List String
  | [] => ([], [])
  | t :: rest =>
    let probe := jsToLower t
    if probe = "constraint" || probe = "references" || probe = "check" ||
        (probe = "not" && (rest.head?.map jsToLower) = some "null") ||
        probe = "null" || probe = "unique" ||
        (probe = "primary" && (rest.head?.map jsToLower) = some "key") then
      ([], t :: rest)
    else
      let r := takeDefaultTokens rest
      (t :: r.1, r.2)

/-- The constraint-token loop of `parseColumnDefinition` (fuel: one unit per
iteration; each consumes at least one token). -/
def parseColumnConstraintTokens : Nat → ParsedColumn → List String → ParsedColumn
  | 0, parsed, _ => parsed
  | _ + 1, parsed, [] => parsed
  | fuel + 1, parsed, tok :: rest =>
    let lower := jsToLower tok
    if lower = "primary" && (rest.head?.map jsToLower) = some "key" then
      parseColumnConstraintTokens fuel
        { parsed with primaryKey := some true, nullable := false } rest.tail
    else if lower = "unique" then
      parseColumnConstraintTokens fuel { parsed with unique := some true } rest
    else if lower = "not" && (rest.head?.map jsToLower) = some "null" then
      parseColumnConstraintTokens fuel { parsed with nullable := false } rest.tail
    else if lower = "null" then
      parseColumnConstraintTokens fuel { parsed with nullable := true } rest
    else if lower = "default" then
      let taken := takeDefaultTokens rest
      parseColumnConstraintTokens fuel
        { parsed with default := normalizeDefault (some (joinWith " " taken.1)) }
        taken.2
    else
      parseColumnConstraintTokens fuel parsed rest

def parseColumnDefinition (segment : String) : Option ParsedColumn :=
  let tokens := tokenize segment
  match tokens with
  | [] => none
  | [_] => none
  | first :: restTokens =>
    let name := normalizeIdentifier first
    let typeTokens := restTokens.takeWhile fun t =>
      !(COLUMN_CONSTRAINT_KEYWORDS.contains (jsToLower t))
    if typeTokens.isEmpty then none
    else
      let constraintToks := restTokens.drop typeTokens.length
      let parsed : ParsedColumn :=
        { name := name
        , type := normalizeSqlType (joinWith " " typeTokens)
        , nullable := true }
      some (parseColumnConstraintTokens constraintToks.length parsed constraintToks)

/-! Regex building blocks. -/

/-- `KEYWORD\s+` (case-insensitive, greedy whitespace). -/
def matchKeywordWs (kw : String) (l : List Char) : Option (List Char) :=
  match dropPrefixCI kw.toList l with
  | none => none
  | some rest =>
    match rest with
    | c :: rest2 => if isWs c then some (rest2.dropWhile isWs) else none
    | [] => none

/-- `\s+` (greedy). -/
def dropWs1 (l : List Char) : Option (List Char) :=
  match l with
  | c :: rest => if isWs c then some (rest.dropWhile isWs) else none
  | [] => none

/-- `(.+)$` without the `s` flag on a trimmed input: any non-empty
newline-free remainder. -/
def matchRestNoNewline (l : List Char) : Option (List Char) :=
  if l.isEmpty || l.contains '\n' then none else some l

/-- `(primary\s+key|unique)` (case-insensitive). -/
def matchPkOrUnique (l : List Char) : Option (ConstraintType × List Char) :=
  match dropPrefixCI "primary".toList l with
  | some r1 =>
    (match dropWs1 r1 with
     | some r2 =>
       match dropPrefixCI "key".toList r2 with
       | some r3 => some (.PRIMARY_KEY, r3)
       | none => none
     | none => none)
  | none =>
    match dropPrefixCI "unique".toList l with
    | some r1 => some (.UNIQUE, r1)
    | none => none

/-- `\((.+)\)$` positioned at the `(`: the last character must be the
matching close paren and the (newline-free, non-empty) content is
everything in between. -/
def parenContentToEnd (l : List Char) : Option (List Char) :=
  match l with
  | '(' :: rest =>
    if rest.getLast? = some ')' then
      let content := rest.dropLast
      if content.isEmpty || content.contains '\n' then none else some content
    else none
  | _ => none

/-- `([^\s]+)`: maximal non-empty run of non-whitespace. -/
def matchNameRun (l : List Char) : Option (List Char × List Char) :=
  let run := l.takeWhile fun c => !isWs c
  if run.isEmpty then none else some (run, l.drop run.length)

/-- parse-migration.ts `parseCreateTableConstraint`. -/
def parseCreateTableConstraint (segment : String) : Option ParsedConstraint :=
  let normalized : String := ⟨collapseWs (trimChars segment.toList)⟩
  let l := normalized.toList
  let attempt1 : Option ParsedConstraint :=
    match matchKeywordWs "constraint" l with
    | none => none
    | some r1 =>
      match matchNameRun r1 with
      | none => none
      | some (nameRun, afterName) =>
        match dropWs1 afterName with
        | none => none
        | some r2 =>
          match matchPkOrUnique r2 with
          | none => none
          | some (ctype, r3) =>
            match parenContentToEnd (r3.dropWhile isWs) with
            | none => none
            | some content =>
              some { type := ctype
                   , name := some (normalizeIdentifier ⟨nameRun⟩)
                   , columns := (splitTopLevelComma ⟨content⟩).map normalizeIdentifier }
  match attempt1 with
  | some c => some c
  | none =>
    let barePk : Option ParsedConstraint :=
      match dropPrefixCI "primary".toList l with
      | none => none
      | some r1 =>
        match dropWs1 r1 with
        | none => none
        | some r2 =>
          match dropPrefixCI "key".toList r2 with
          | none => none
          | some r3 =>
            match parenContentToEnd (r3.dropWhile isWs) with
            | none => none
            | some content =>
              some { type := .PRIMARY_KEY
                   , columns := (splitTopLevelComma ⟨content⟩).map normalizeIdentifier }
    match barePk with
    | some c => some c
    | none =>
      match dropPrefixCI "unique".toList l with
      | none => none
      | some r1 =>
        match parenContentToEnd (r1.dropWhile isWs) with
        | none => none
        | some content =>
          some { type := .UNIQUE
               , columns := (splitTopLevelComma ⟨content⟩).map normalizeIdentifier }

/-- parse-migration.ts `parseAlterTablePrefix`
(`/^alter\s+table\s+(?:if\s+exists\s+)?(?:only\s+)?(.+)$/i`); the optional
groups are tried in regex backtracking order, falling back when the final
`(.+)$` cannot match. -/
def parseAlterTablePrefix (stmt : String) : Option (String × String) :=
  match matchKeywordWs "alter" stmt.toList with
  | none => none
  | some r0 =>
    match matchKeywordWs "table" r0 with
    | none => none
    | some r1 =>
      let afterIfExists : Option (List Char) :=
        (matchKeywordWs "if" r1).bind (matchKeywordWs "exists")
      let candidates : List (List Char) :=
        (match afterIfExists with
         | some r2 =>
           (match matchKeywordWs "only" r2 with
            | some r3 => [r3, r2]
            | none => [r2]) ++
           (match matchKeywordWs "only" r1 with
            | some r3 => [r3, r1]
            | none => [r1])
         | none =>
           match matchKeywordWs "only" r1 with
           | some r3 => [r3, r1]
           | none => [r1])
      match candidates.findSome? matchRestNoNewline with
      | none => none
      | some group1 =>
        let remainder : String := ⟨group1⟩
        let tokens := tokenize remainder
        match tokens with
        | [] => none
        | [_] => none
        | tableToken :: _ =>
          some (normalizeIdentifier tableToken,
            jsTrim (remainder.drop tableToken.length))

/-- `(.+?)\s*\((.*)\)$` with the `s` flag, positioned after `create\s+table`
plus a whitespace run of length `wsRun ≥ 1` (regex backtracking into that
run makes a lone `(` right after the run reachable when the run has length
at least two: the lazy group then captures a single whitespace character).
Returns (group1, group2). -/
def createTableSplit (wsRun : List Char) (rem : List Char) :
    Option (List Char × List Char) :=
  let direct : Option (List Char × List Char) :=
    if (rem.drop 1).contains '(' then
      let k := 1 + (rem.drop 1).indexOf '('
      if rem.getLast? = some ')' then
        let beforeParen := rem.take k
        let i := (beforeParen.reverse.takeWhile isWs).length
        let L := max (k - i) 1
        some (rem.take L, (rem.drop (k + 1)).dropLast)
      else none
    else none
  match direct with
  | some r => some r
  | none =>
    if rem.head? = some '(' && wsRun.length ≥ 2 && rem.getLast? = some ')' then
      some ([wsRun.getLast!], (rem.drop 1).dropLast)
    else none

/-- parse-migration.ts `parseCreateTable`
(`/^create\s+table\s+(?:if\s+not\s+exists\s+)?(.+?)\s*\((.*)\)$/is`). -/
def parseCreateTable (stmt : String) : Option SqlOp :=
  match dropPrefixCI "create".toList stmt.toList with
  | none => none
  | some afterCreate =>
    match dropWs1 afterCreate with
    | none => none
    | some afterWs1 =>
      match dropPrefixCI "table".toList afterWs1 with
      | none => none
      | some afterTable =>
        let wsRun0 := afterTable.takeWhile isWs
        if wsRun0.isEmpty then none
        else
          let rem0 := afterTable.drop wsRun0.length
          let withOptional : Option (List Char × List Char) :=
            match (matchKeywordWs "if" rem0).bind (fun r => matchKeywordWs "not" r)
                |>.bind (fun r => dropPrefixCI "exists".toList r) with
            | none => none
            | some afterExists =>
              let wsRun1 := afterExists.takeWhile isWs
              if wsRun1.isEmpty then none
              else createTableSplit wsRun1 (afterExists.drop wsRun1.length)
          let split :=
            match withOptional with
            | some r => some r
            | none => createTableSplit wsRun0 rem0
          match split with
          | none => none
          | some (group1, body) =>
            let table := normalizeIdentifier ⟨group1⟩
            let segments := splitTopLevelComma ⟨body⟩
            let parsedSegs := segments.map fun segment =>
              match parseCreateTableConstraint segment with
              | some constraint => Sum.inr constraint
              | none =>
                match parseColumnDefinition segment with
                | some column => Sum.inl (some column)
                | none => Sum.inl none
            some (.CREATE_TABLE table
              (parsedSegs.filterMap fun s =>
                match s with
                | Sum.inl (some column) => some column
                | _ => none)
              (parsedSegs.filterMap fun s =>
                match s with
                | Sum.inr constraint => some constraint
                | _ => none))

/-- parse-migration.ts `parseAlterTableAddColumn`
(`/^add\s+column\s+(?:if\s+not\s+exists\s+)?(.+)$/i` on the prefix rest). -/
def parseAlterTableAddColumn (stmt : String) : Option SqlOp :=
  match parseAlterTablePrefix stmt with
  | none => none
  | some (table, rest) =>
    match (matchKeywordWs "add" rest.toList).bind (matchKeywordWs "column") with
    | none => none
    | some r1 =>
      let afterIfNotExists : Option (List Char) :=
        ((matchKeywordWs "if" r1).bind (matchKeywordWs "not")).bind
          (matchKeywordWs "exists")
      let content : Option (List Char) :=
        match afterIfNotExists with
        | some r2 =>
          (match matchRestNoNewline r2 with
           | some g => some g
           | none => matchRestNoNewline r1)
        | none => matchRestNoNewline r1
      match content with
      | none => none
      | some g =>
        match parseColumnDefinition ⟨g⟩ with
        | none => none
        | some column => some (.ADD_COLUMN table column)

/-- `.replace(/\s+using\s+[\s\S]*$/i, '')`: cut at the leftmost whitespace
run followed by `using` and at least one further whitespace character. -/
def stripUsingSuffix : List Char → List Char
  | [] => []
  | c :: rest =>
    if isWs c then
      match dropPrefixCI "using".toList ((c :: rest).dropWhile isWs) with
      | some (c2 :: _) =>
        if isWs c2 then [] else c :: stripUsingSuffix rest
      | _ => c :: stripUsingSuffix rest
    else c :: stripUsingSuffix rest

/-- parse-migration.ts `parseAlterColumnType`
(`/^alter\s+column\s+([^\s]+)\s+type\s+(.+)$/i` on the prefix rest). -/
def parseAlterColumnType (stmt : String) : Option SqlOp :=
  match parseAlterTablePrefix stmt with
  | none => none
  | some (table, rest) =>
    match (matchKeywordWs "alter" rest.toList).bind (matchKeywordWs "column") with
    | none => none
    | some r1 =>
      match matchNameRun r1 with
      | none => none
      | some (nameRun, afterName) =>
        match dropWs1 afterName with
        | none => none
        | some r2 =>
          match dropPrefixCI "type".toList r2 with
          | none => none
          | some r3 =>
            match dropWs1 r3 with
            | none => none
            | some r4 =>
              match matchRestNoNewline r4 with
              | none => none
              | some g =>
                some (.ALTER_COLUMN_TYPE table (normalizeIdentifier ⟨nameRun⟩)
                  (normalizeSqlType (jsTrim ⟨stripUsingSuffix g⟩)))

/-- parse-migration.ts `parseSetDropNotNull`. -/
def parseSetDropNotNull (stmt : String) : Option SqlOp :=
  match parseAlterTablePrefix stmt with
  | none => none
  | some (table, rest) =>
    match (matchKeywordWs "alter" rest.toList).bind (matchKeywordWs "column") with
    | none => none
    | some r1 =>
      match matchNameRun r1 with
      | none => none
      | some (nameRun, afterName) =>
        match dropWs1 afterName with
        | none => none
        | some r2 =>
          let setTail :=
            ((matchKeywordWs "set" r2).bind (matchKeywordWs "not")).bind
              (dropPrefixCI "null".toList)
          match setTail with
          | some [] => some (.SET_NOT_NULL table (normalizeIdentifier ⟨nameRun⟩))
          | _ =>
            let dropTail :=
              ((matchKeywordWs "drop" r2).bind (matchKeywordWs "not")).bind
                (dropPrefixCI "null".toList)
            match dropTail with
            | some [] => some (.DROP_NOT_NULL table (normalizeIdentifier ⟨nameRun⟩))
            | _ => none

/-- parse-migration.ts `parseSetDropDefault`. -/
def parseSetDropDefault (stmt : String) : Option SqlOp :=
  match parseAlterTablePrefix stmt with
  | none => none
  | some (table, rest) =>
    match (matchKeywordWs "alter" rest.toList).bind (matchKeywordWs "column") with
    | none => none
    | some r1 =>
      match matchNameRun r1 with
      | none => none
      | some (nameRun, afterName) =>
        match dropWs1 afterName with
        | none => none
        | some r2 =>
          let setExpr :=
            ((matchKeywordWs "set" r2).bind (matchKeywordWs "default")).bind
              matchRestNoNewline
          match setExpr with
          | some g =>
            let raw := jsTrim ⟨g⟩
            some (.SET_DEFAULT table (normalizeIdentifier ⟨nameRun⟩)
              ((normalizeDefault (some raw)).getD raw))
          | none =>
            let dropTail :=
              (matchKeywordWs "drop" r2).bind (dropPrefixCI "default".toList)
            match dropTail with
            | some [] => some (.DROP_DEFAULT table (normalizeIdentifier ⟨nameRun⟩))
            | _ => none

/-- `(?:if\s+exists\s+)?([^\s]+)(?:\s+cascade)?$`: shared tail of the DROP
recognizers (the optional `if exists` falls back when the rest of the
pattern cannot match). -/
def matchNameIfExistsCascade (l : List Char) : Option String :=
  let attempt : List Char → Option String := fun l2 =>
    match matchNameRun l2 with
    | none => none
    | some (nameRun, tail) =>
      if tail.isEmpty then some ⟨nameRun⟩
      else
        match (dropWs1 tail).bind (dropPrefixCI "cascade".toList) with
        | some [] => some ⟨nameRun⟩
        | _ => none
  match (matchKeywordWs "if" l).bind (matchKeywordWs "exists") with
  | some l2 =>
    (match attempt l2 with
     | some n => some n
     | none => attempt l)
  | none => attempt l

/-- parse-migration.ts `parseAddDropConstraint`. -/
def parseAddDropConstraint (stmt : String) : Option SqlOp :=
  match parseAlterTablePrefix stmt with
  | none => none
  | some (table, rest) =>
    let addMatch : Option ParsedConstraint :=
      match (matchKeywordWs "add" rest.toList).bind (matchKeywordWs "constraint") with
      | none => none
      | some r1 =>
        match matchNameRun r1 with
        | none => none
        | some (nameRun, afterName) =>
          match dropWs1 afterName with
          | none => none
          | some r2 =>
            match matchPkOrUnique r2 with
            | none => none
            | some (ctype, r3) =>
              match parenContentToEnd (r3.dropWhile isWs) with
              | none => none
              | some content =>
                some { type := ctype
                     , name := some (normalizeIdentifier ⟨nameRun⟩)
                     , columns := (splitTopLevelComma ⟨content⟩).map normalizeIdentifier }
    match addMatch with
    | some constraint => some (.ADD_CONSTRAINT table constraint)
    | none =>
      match (matchKeywordWs "drop" rest.toList).bind (matchKeywordWs "constraint") with
      | none => none
      | some r1 =>
        match matchNameIfExistsCascade r1 with
        | none => none
        | some name => some (.DROP_CONSTRAINT table (normalizeIdentifier name))

/-- parse-migration.ts `parseDropColumn`. -/
def parseDropColumn (stmt : String) : Option SqlOp :=
  match parseAlterTablePrefix stmt with
  | none => none
  | some (table, rest) =>
    match (matchKeywordWs "drop" rest.toList).bind (matchKeywordWs "column") with
    | none => none
    | some r1 =>
      match matchNameIfExistsCascade r1 with
      | none => none
      | some name => some (.DROP_COLUMN table (normalizeIdentifier name))

/-- parse-migration.ts `parseDropTable`
(`/^drop\s+table\s+(?:if\s+exists\s+)?([^\s]+)(?:\s+cascade)?$/i`). -/
def parseDropTable (stmt : String) : Option SqlOp :=
  match (matchKeywordWs "drop" stmt.toList).bind (matchKeywordWs "table") with
  | none => none
  | some r1 =>
    match matchNameIfExistsCascade r1 with
    | none => none
    | some name => some (.DROP_TABLE (normalizeIdentifier name))

def PARSERS : List (String → Option SqlOp) :=
  [parseCreateTable, parseAlterTableAddColumn, parseAlterColumnType,
   parseSetDropNotNull, parseSetDropDefault, parseAddDropConstraint,
   parseDropColumn, parseDropTable]

def runParsers : List (String → Option SqlOp) → String → Option SqlOp
  | [], _ => none
  | p :: rest, stmt =>
    match p stmt with
    | some op => some op
    | none => runParsers rest stmt

structure ParseResult where
  ops : List SqlOp
  warnings : List ParseWarning
deriving DecidableEq, Repr

/-- The per-statement step of `parseMigrationSql`. -/
def parseMigrationStep (acc : ParseResult) (raw : String) : ParseResult :=
  let stmt := jsTrim (removeSqlComments raw)
  if stmt.isEmpty then acc
  else
    match runParsers PARSERS stmt with
    | some op => { acc with ops := acc.ops ++ [op] }
    | none =>
      { acc with warnings := acc.warnings ++
          [{ statement := stmt, reason := "Unsupported or unrecognized statement" }] }

/-- parse-migration.ts `parseMigrationSql`. -/
def parseMigrationSql (sql : String) : ParseResult :=
  (splitSqlStatements sql).foldl parseMigrationStep { ops := [], warnings := [] }

/-! ## Shared helper lemmas -/

theorem joinWith_pair (sep a b : String) : joinWith sep [a, b] = a ++ sep ++ b := rfl

theorem jsSetDedup_pair {a b : String} (h : a ≠ b) : jsSetDedup [a, b] = [a, b] := by
  simp [jsSetDedup, jsSetDedupAux, Ne.symm h]

theorem uqName_length (t c : String) :
    (uqName t c).length = (normalizeIdent t).length + (normalizeIdent c).length + 4 := by
  have h1 : ("uq_" : String).length = 3 := rfl
  have h2 : ("_" : String).length = 1 := rfl
  simp [uqName, String.length_append, h1, h2]
  omega

theorem legacyUqName_length (t c : String) :
    (legacyUqName t c).length = (normalizeIdent t).length + (normalizeIdent c).length + 5 := by
  have h1 : ("_" : String).length = 1 := rfl
  have h2 : ("_key" : String).length = 4 := rfl
  simp [legacyUqName, String.length_append, h1, h2]
  omega

theorem uqName_ne_legacyUqName (t c : String) : uqName t c ≠ legacyUqName t c := by
  intro h
  have := congrArg String.length h
  rw [uqName_length, legacyUqName_length] at this
  omega

theorem pkName_ne_legacyPkName (t : String) : pkName t ≠ legacyPkName t := by
  intro h
  have := congrArg String.length h
  have h1 : ("pk_" : String).length = 3 := rfl
  have h2 : ("_pkey" : String).length = 5 := rfl
  simp [pkName, legacyPkName, String.length_append, h1, h2] at this
  omega

theorem generateDropConstraintStatements_pair (t : String) {a b : String} (h : a ≠ b) :
    generateDropConstraintStatements t [a, b] =
      "ALTER TABLE " ++ t ++ " DROP CONSTRAINT IF EXISTS " ++ a ++ ";" ++ "\n" ++
        ("ALTER TABLE " ++ t ++ " DROP CONSTRAINT IF EXISTS " ++ b ++ ";") := by
  rw [generateDropConstraintStatements, jsSetDedup_pair h]
  rfl

/-! ## C8: unique-removal and PK-drop rendering -/

/-- C8: the generator renders `column_unique_changed` with `to = false` as
exactly two `DROP CONSTRAINT IF EXISTS` statements on the table, naming the
deterministic `uq_<t>_<c>` and the legacy fallback `<t>_<c>_key` (the names
are derived through `normalizeIdent` and never collide, so the
deduplicating join keeps both), and renders `drop_primary_key_constraint`
as two such statements naming `pk_<t>` and `<t>_pkey`; in particular the
users/email instance produces the two quoted statements. -/
theorem c8_drop_constraint_rendering :
    (∀ (t c : String) (fromU : Bool) (p : Provider),
      generateOperation (.column_unique_changed t c fromU false) p =
        "ALTER TABLE " ++ t ++ " DROP CONSTRAINT IF EXISTS " ++ uqName t c ++ ";" ++
          "\n" ++
          ("ALTER TABLE " ++ t ++ " DROP CONSTRAINT IF EXISTS " ++ legacyUqName t c ++ ";")) ∧
    (∀ (t : String) (p : Provider),
      generateOperation (.drop_primary_key_constraint t) p =
        "ALTER TABLE " ++ t ++ " DROP CONSTRAINT IF EXISTS " ++ pkName t ++ ";" ++
          "\n" ++
          ("ALTER TABLE " ++ t ++ " DROP CONSTRAINT IF EXISTS " ++ legacyPkName t ++ ";")) ∧
    (∀ t c, uqName t c = "uq_" ++ normalizeIdent t ++ "_" ++ normalizeIdent c ∧
      legacyUqName t c = normalizeIdent t ++ "_" ++ normalizeIdent c ++ "_key" ∧
      pkName t = "pk_" ++ normalizeIdent t ∧ legacyPkName t = normalizeIdent t ++ "_pkey") ∧
    generateOperation (.column_unique_changed "users" "email" true false) .postgres =
      "ALTER TABLE users DROP CONSTRAINT IF EXISTS uq_users_email;\n" ++
        "ALTER TABLE users DROP CONSTRAINT IF EXISTS users_email_key;" ∧
    generateOperation (.drop_primary_key_constraint "users") .postgres =
      "ALTER TABLE users DROP CONSTRAINT IF EXISTS pk_users;\n" ++
        "ALTER TABLE users DROP CONSTRAINT IF EXISTS users_pkey;" := by
  refine ⟨?_, ?_, ?_, ?_, ?_⟩
  · intro t c fromU p
    have step : generateOperation (.column_unique_changed t c fromU false) p =
        generateDropUniqueConstraint t c := by
      simp [generateOperation]
    rw [step, generateDropUniqueConstraint]
    exact generateDropConstraintStatements_pair t (uqName_ne_legacyUqName t c)
  · intro t p
    have step : generateOperation (.drop_primary_key_constraint t) p =
        generateDropPrimaryKeyConstraint t := by
      simp [generateOperation]
    rw [step, generateDropPrimaryKeyConstraint]
    exact generateDropConstraintStatements_pair t (pkName_ne_legacyPkName t)
  · intro t c
    exact ⟨rfl, rfl, rfl, rfl⟩
  · decide
  · decide

/-! ## C7: DROP_CONSTRAINT name heuristic -/

theorem updateFirst_congr {α : Type} {p q : α → Bool} (f : α → α) (l : List α)
    (h : ∀ a, p a = q a) : updateFirst p f l = updateFirst q f l := by
  induction l with
  | nil => rfl
  | cons a rest ih => simp only [updateFirst, h a, ih]

/-- C7: replaying `DROP_CONSTRAINT` on an existing table applies
`clearConstraintByName`, which dispatches on the constraint name: a name
ending in `_pkey` or starting with `pk_` clears the primary-key bookkeeping
(the `primaryKey` field becomes unset and the resolved PK column's
`primaryKey` flag is cleared); otherwise a name ending in `_key` or starting
with `uq_` clears the `unique` flag on every column; all other names leave
the table unchanged.  (The `primaryKey ≠ some ""` hypothesis mirrors JS
truthiness: replayed states only ever hold non-empty column names there.) -/
theorem c7_drop_constraint_heuristic
    (tables : List (String × Table)) (tname nm : String) (table : Table)
    (hfound : lookupKey tname tables = some table)
    (hpk : table.primaryKey ≠ some "") :
    applySqlOp tables (.DROP_CONSTRAINT tname nm) =
      (setKey tables tname (clearConstraintByName table nm), []) ∧
    ((jsEndsWith nm "_pkey" || jsStartsWith nm "pk_") = true →
      (clearConstraintByName table nm).primaryKey = none ∧
      (∀ s, table.primaryKey = some s →
        (clearConstraintByName table nm).columns =
          updateFirst (fun c => c.name = s)
            (fun c => { c with primaryKey := some false }) table.columns) ∧
      (table.primaryKey = none → clearConstraintByName table nm = table)) ∧
    ((jsEndsWith nm "_pkey" || jsStartsWith nm "pk_") = false →
      (jsEndsWith nm "_key" || jsStartsWith nm "uq_") = true →
      (clearConstraintByName table nm).primaryKey = table.primaryKey ∧
      (clearConstraintByName table nm).columns =
        table.columns.map (fun column =>
          if column.unique = some true then { column with unique := some false }
          else column) ∧
      (∀ c ∈ (clearConstraintByName table nm).columns, c.unique ≠ some true)) ∧
    ((jsEndsWith nm "_pkey" || jsStartsWith nm "pk_") = false →
      (jsEndsWith nm "_key" || jsStartsWith nm "uq_") = false →
      clearConstraintByName table nm = table) := by
  refine ⟨by simp [applySqlOp, hfound], ?_, ?_, ?_⟩
  · intro hcond
    rcases hpkv : table.primaryKey with _ | s
    · have htruthy : jsTruthyStr table.primaryKey = false := by
        simp [jsTruthyStr, hpkv]
      have hself : clearConstraintByName table nm = table := by
        simp [clearConstraintByName, hcond, htruthy]
      refine ⟨by rw [hself, hpkv], ?_, fun _ => hself⟩
      intro s hs
      exact absurd hs (by simp)
    · have hs : s ≠ "" := fun h => hpk (by rw [hpkv, h])
      have htruthy : jsTruthyStr table.primaryKey = true := by
        simp [jsTruthyStr, hpkv, hs]
      have hclear : clearConstraintByName table nm =
          { table with
            primaryKey := none
          , columns := updateFirst (fun c => some c.name = table.primaryKey)
              (fun c => { c with primaryKey := some false }) table.columns } := by
        simp [clearConstraintByName, hcond, htruthy]
      refine ⟨by rw [hclear], ?_, ?_⟩
      · intro s' hs'
        have hss : s' = s := by
          injection hs' with h
          exact h.symm
        subst hss
        rw [hclear]
        exact updateFirst_congr _ _ fun c => by simp [hpkv]
      · intro h
        exact absurd h (by simp)
  · intro h1 h2
    have hclear : clearConstraintByName table nm =
        { table with
          columns := table.columns.map (fun column =>
            if column.unique = some true then { column with unique := some false }
            else column) } := by
      simp [clearConstraintByName, h1, h2]
    refine ⟨by rw [hclear], by rw [hclear], ?_⟩
    intro c hc
    rw [hclear] at hc
    obtain ⟨c0, _, hc0⟩ := List.mem_map.mp hc
    by_cases hu : c0.unique = some true
    · rw [if_pos hu] at hc0
      rw [← hc0]
      simp
    · rw [if_neg hu] at hc0
      rw [← hc0]
      exact hu
  · intro h1 h2
    simp [clearConstraintByName, h1, h2]

/-- C7 witness: a concrete `t_pkey` drop on a one-column table. -/
theorem c7_drop_constraint_heuristic_witness :
    (clearConstraintByName
        { name := "t", columns := [{ name := "id", type := "uuid" }],
          primaryKey := some "id" } "t_pkey").primaryKey = none :=
  ((c7_drop_constraint_heuristic
      [("t", { name := "t", columns := [{ name := "id", type := "uuid" }],
               primaryKey := some "id" })] "t" "t_pkey"
      { name := "t", columns := [{ name := "id", type := "uuid" }],
        primaryKey := some "id" }
      (by decide) (by decide)).2.1 (by decide)).1

/-! ## Association-list lemmas -/

theorem lookupKey_eq_none_iff {α : Type} (k : String) (l : List (String × α)) :
    lookupKey k l = none ↔ k ∉ l.map Prod.fst := by
  induction l with
  | nil => simp [lookupKey]
  | cons p rest ih =>
    by_cases h : p.1 = k
    · simp [lookupKey, h]
    · simp [lookupKey, h, ih, Ne.symm h]

theorem lookupKey_mem {α : Type} {k : String} {l : List (String × α)} {v : α}
    (h : lookupKey k l = some v) : (k, v) ∈ l := by
  induction l with
  | nil => simp [lookupKey] at h
  | cons p rest ih =>
    by_cases hp : p.1 = k
    · rw [lookupKey, if_pos hp] at h
      injection h with h2
      have hpv : p = (k, v) := by cases p; simp_all
      rw [← hpv]
      exact List.mem_cons_self _ _
    · rw [lookupKey, if_neg hp] at h
      exact List.mem_cons_of_mem _ (ih h)

theorem mem_setKey {l : List (String × Table)} {k : String} {v : Table}
    {p : String × Table} (h : p ∈ setKey l k v) : p = (k, v) ∨ p ∈ l := by
  induction l with
  | nil => simp [setKey] at h; simp [h]
  | cons q rest ih =>
    by_cases hq : q.1 = k
    · rw [setKey, if_pos hq] at h
      rcases List.mem_cons.mp h with h | h
      · exact Or.inl h
      · exact Or.inr (List.mem_cons_of_mem _ h)
    · rw [setKey, if_neg hq] at h
      rcases List.mem_cons.mp h with h | h
      · exact Or.inr (by simp [h])
      · rcases ih h with h' | h'
        · exact Or.inl h'
        · exact Or.inr (List.mem_cons_of_mem _ h')

theorem mem_removeKey {l : List (String × Table)} {k : String}
    {p : String × Table} (h : p ∈ removeKey l k) : p ∈ l := by
  induction l with
  | nil => simp [removeKey] at h
  | cons q rest ih =>
    by_cases hq : q.1 = k
    · rw [removeKey, if_pos hq] at h
      exact List.mem_cons_of_mem _ h
    · rw [removeKey, if_neg hq] at h
      rcases List.mem_cons.mp h with h | h
      · simp [h]
      · exact List.mem_cons_of_mem _ (ih h)

theorem setKey_append_of_none {l : List (String × Table)} {k : String}
    (h : lookupKey k l = none) (v w : Table) :
    setKey (l ++ [(k, v)]) k w = l ++ [(k, w)] := by
  induction l with
  | nil => simp [setKey]
  | cons q rest ih =>
    rw [lookupKey] at h
    by_cases hq : q.1 = k
    · rw [if_pos hq] at h
      exact absurd h (by simp)
    · rw [if_neg hq] at h
      cases q with
      | mk a b =>
        have ha : ¬ a = k := hq
        simp only [List.cons_append, setKey, if_neg ha, List.append_eq, ih h]

/-! ## C10: ADD_COLUMN creates missing tables; silent ops; replacement -/

/-- C10: an `ADD_COLUMN` on a table absent from the accumulated schema
creates that table containing just the added column (promoted to PK when
flagged), whereas `ALTER_COLUMN_TYPE`, `SET/DROP_NOT_NULL` and
`SET/DROP_DEFAULT` on a missing table leave the schema unchanged; and an
`ADD_COLUMN` whose column name already exists replaces the existing column
and moves it to the end of the table's column order. -/
theorem c10_add_column_semantics :
    (∀ (tables : List (String × Table)) (t : String) (col : ParsedColumn),
      lookupKey t tables = none →
      applySqlOp tables (.ADD_COLUMN t col) =
        (tables ++ [(t, { name := t, columns := [toSchemaColumn col]
                        , primaryKey := if jsTruthyBool col.primaryKey then some col.name
                            else none })], [])) ∧
    (∀ (tables : List (String × Table)) (t c ty : String),
      lookupKey t tables = none →
      applySqlOp tables (.ALTER_COLUMN_TYPE t c ty) = (tables, []) ∧
      applySqlOp tables (.SET_NOT_NULL t c) = (tables, []) ∧
      applySqlOp tables (.DROP_NOT_NULL t c) = (tables, []) ∧
      applySqlOp tables (.SET_DEFAULT t c ty) = (tables, []) ∧
      applySqlOp tables (.DROP_DEFAULT t c) = (tables, [])) ∧
    (∀ (tables : List (String × Table)) (t : String) (col : ParsedColumn) (table : Table),
      lookupKey t tables = some table →
      ∃ table', applySqlOp tables (.ADD_COLUMN t col) = (setKey tables t table', []) ∧
        table'.columns =
          (table.columns.filter fun c => c.name ≠ col.name) ++ [toSchemaColumn col] ∧
        table'.columns.getLast? = some (toSchemaColumn col) ∧
        (toSchemaColumn col).name = col.name ∧
        (∀ c ∈ table.columns, c.name = col.name →
          c ∉ table'.columns.dropLast)) := by
  refine ⟨?_, ?_, ?_⟩
  · intro tables t col hnone
    rw [applySqlOp]
    simp only [getOrCreateTable, hnone]
    by_cases hb : jsTruthyBool col.primaryKey
    · simp [hb, setKey_append_of_none hnone]
    · simp [hb, setKey_append_of_none hnone]
  · intro tables t c ty hnone
    refine ⟨?_, ?_, ?_, ?_, ?_⟩ <;> simp [applySqlOp, hnone]
  · intro tables t col table hfound
    by_cases hb : jsTruthyBool col.primaryKey
    · refine ⟨{ table with
          columns := (table.columns.filter fun c => c.name ≠ col.name) ++
            [toSchemaColumn col]
        , primaryKey := some col.name }, ?_, rfl, ?_, rfl, ?_⟩
      · rw [applySqlOp]
        simp only [getOrCreateTable, hfound, hb, if_true]
      · simp
      · intro c _ hname hmem
        rw [List.dropLast_concat] at hmem
        have := (List.mem_filter.mp hmem).2
        simp [hname] at this
    · refine ⟨{ table with
          columns := (table.columns.filter fun c => c.name ≠ col.name) ++
            [toSchemaColumn col] }, ?_, rfl, ?_, rfl, ?_⟩
      · rw [applySqlOp]
        simp only [getOrCreateTable, hfound, hb, if_false, Bool.false_eq_true]
      · simp
      · intro c _ hname hmem
        rw [List.dropLast_concat] at hmem
        have := (List.mem_filter.mp hmem).2
        simp [hname] at this

/-- C10 witness: adding a column to an absent table creates it. -/
theorem c10_add_column_semantics_witness :
    applySqlOp [] (.ADD_COLUMN "users" { name := "id", type := "uuid", nullable := true }) =
      ([("users", { name := "users"
                  , columns := [toSchemaColumn { name := "id", type := "uuid", nullable := true }]
                  , primaryKey := none })], []) := by
  have h := c10_add_column_semantics.1 []
    "users" { name := "id", type := "uuid", nullable := true } rfl
  simpa using h

/-! ## C9: the replayer's primary-key bookkeeping invariant -/

theorem map_name_updateFirst (p : Column → Bool) (f : Column → Column) (l : List Column)
    (h : ∀ c, (f c).name = c.name) :
    (updateFirst p f l).map Column.name = l.map Column.name := by
  induction l with
  | nil => rfl
  | cons c rest ih =>
    rw [updateFirst]
    by_cases hc : p c
    · simp [hc, h c]
    · simp [hc, ih]

theorem mem_map_name_updateFirst {l : List Column} {p : Column → Bool}
    {f : Column → Column} (h : ∀ c, (f c).name = c.name) {s : String}
    (hs : s ∈ l.map Column.name) : s ∈ (updateFirst p f l).map Column.name := by
  rw [map_name_updateFirst _ _ _ h]
  exact hs

theorem applySingleColumnConstraint_ok {table t' : Table} {constraint : ParsedConstraint}
    (h : applySingleColumnConstraint table constraint = some t')
    (hok : ∀ s, table.primaryKey = some s → s ∈ table.columns.map Column.name) :
    ∀ s, t'.primaryKey = some s → s ∈ t'.columns.map Column.name := by
  rw [applySingleColumnConstraint] at h
  split at h
  · split at h
    · exact absurd h (by simp)
    · rename_i target targetColumn hfind
      split at h
      · injection h with h
        subst h
        intro s hs
        simp only at hs
        simp only []
        injection hs with hs
        rw [← hs]
        refine mem_map_name_updateFirst ?_
          (List.mem_map.mpr ⟨targetColumn, List.mem_of_find?_eq_some hfind, rfl⟩)
        exact fun c => rfl
      · injection h with h
        subst h
        intro s hs
        simp only at hs
        simp only []
        refine mem_map_name_updateFirst ?_ (hok s hs)
        exact fun c => rfl
  · exact absurd h (by simp)

theorem createTable_pk_foldl (cols : List Column) (acc : Option String) (s : String)
    (h : cols.foldl
        (fun acc column => if jsTruthyBool column.primaryKey then some column.name else acc)
        acc = some s) :
    acc = some s ∨ ∃ c ∈ cols, c.name = s := by
  induction cols generalizing acc with
  | nil => exact Or.inl h
  | cons c rest ih =>
    rw [List.foldl_cons] at h
    rcases ih _ h with h' | ⟨c', hc', hn⟩
    · by_cases hb : jsTruthyBool c.primaryKey
      · rw [if_pos hb] at h'
        injection h' with h'
        exact Or.inr ⟨c, by simp, h'⟩
      · rw [if_neg hb] at h'
        exact Or.inl h'
    · exact Or.inr ⟨c', List.mem_cons_of_mem _ hc', hn⟩

theorem constraints_foldl_ok
    (warn : Table × List ParseWarning → ParsedConstraint → List ParseWarning)
    (constraints : List ParsedConstraint) (start : Table × List ParseWarning)
    (hok : ∀ s, start.1.primaryKey = some s → s ∈ start.1.columns.map Column.name) :
    ∀ s, (constraints.foldl
        (fun (acc : Table × List ParseWarning) constraint =>
          match applySingleColumnConstraint acc.1 constraint with
          | some t' => (t', acc.2)
          | none => (acc.1, warn acc constraint)) start).1.primaryKey = some s →
      s ∈ ((constraints.foldl
        (fun (acc : Table × List ParseWarning) constraint =>
          match applySingleColumnConstraint acc.1 constraint with
          | some t' => (t', acc.2)
          | none => (acc.1, warn acc constraint)) start).1.columns.map Column.name) := by
  induction constraints generalizing start with
  | nil => exact hok
  | cons constraint rest ih =>
    rw [List.foldl_cons]
    apply ih
    match happ : applySingleColumnConstraint start.1 constraint with
    | some t' =>
      simp only [happ]
      exact applySingleColumnConstraint_ok happ hok
    | none =>
      simp only [happ]
      exact hok

theorem clearConstraintByName_ok (table : Table) (nm : String)
    (hok : ∀ s, table.primaryKey = some s → s ∈ table.columns.map Column.name) :
    ∀ s, (clearConstraintByName table nm).primaryKey = some s →
      s ∈ (clearConstraintByName table nm).columns.map Column.name := by
  rw [clearConstraintByName]
  by_cases h1 : (jsEndsWith nm "_pkey" || jsStartsWith nm "pk_") = true
  · rw [if_pos h1]
    by_cases h2 : jsTruthyStr table.primaryKey = true
    · rw [if_pos h2]
      intro s hs
      exact absurd hs (by simp)
    · rw [if_neg h2]
      exact hok
  · rw [if_neg h1]
    by_cases h2 : (jsEndsWith nm "_key" || jsStartsWith nm "uq_") = true
    · rw [if_pos h2]
      intro s hs
      simp only at hs
      have : (table.columns.map fun column =>
          if column.unique = some true then { column with unique := some false }
          else column).map Column.name = table.columns.map Column.name := by
        rw [List.map_map]
        apply List.map_congr_left
        intro c _
        by_cases hu : c.unique = some true <;> simp [hu]
      simp only
      rw [this]
      exact hok s hs
    · rw [if_neg h2]
      exact hok

/-- C9: after the replayer processes any operation sequence (hence any
prefix of any sequence), every table whose `primaryKey` field holds a column
name contains a column of exactly that name; each single operation
preserves this invariant. -/
theorem c9_primary_key_invariant :
    (∀ (tables : List (String × Table)) (op : SqlOp),
      (∀ p ∈ tables, ∀ s, p.2.primaryKey = some s → s ∈ p.2.columns.map Column.name) →
      ∀ p ∈ (applySqlOp tables op).1, ∀ s, p.2.primaryKey = some s →
        s ∈ p.2.columns.map Column.name) ∧
    (∀ ops : List SqlOp, ∀ p ∈ (applySqlOps ops).schema.tables, ∀ s,
      p.2.primaryKey = some s → s ∈ p.2.columns.map Column.name) := by
  have step : ∀ (tables : List (String × Table)) (op : SqlOp),
      (∀ p ∈ tables, ∀ s, p.2.primaryKey = some s → s ∈ p.2.columns.map Column.name) →
      ∀ p ∈ (applySqlOp tables op).1, ∀ s, p.2.primaryKey = some s →
        s ∈ p.2.columns.map Column.name := by
    intro tables op hinv
    have fromSetKey : ∀ (t : String) (newTable : Table),
        (∀ s, newTable.primaryKey = some s → s ∈ newTable.columns.map Column.name) →
        ∀ p ∈ setKey tables t newTable, ∀ s, p.2.primaryKey = some s →
          s ∈ p.2.columns.map Column.name := by
      intro t newTable hnew p hp
      rcases mem_setKey hp with h | h
      · rw [h]; exact hnew
      · exact hinv p h
    match op with
    | .CREATE_TABLE tname columns constraints =>
      rw [applySqlOp]
      simp only
      apply fromSetKey
      apply constraints_foldl_ok
      intro s hs
      simp only at hs
      rcases createTable_pk_foldl _ _ _ hs with h | ⟨c, hc, hn⟩
      · exact absurd h (by simp)
      · exact List.mem_map.mpr ⟨c, hc, hn⟩
    | .ADD_COLUMN tname column =>
      rw [applySqlOp]
      simp only
      match hlook : lookupKey tname tables with
      | none =>
        simp only [getOrCreateTable, hlook]
        by_cases hb : jsTruthyBool column.primaryKey
        · simp only [hb, if_true]
          intro p hp
          rcases mem_setKey hp with h | h
          · rw [h]
            intro s hs
            simp only at hs
            injection hs with hs
            simp [toSchemaColumn, ← hs]
          · rcases List.mem_append.mp h with h' | h'
            · exact hinv p h'
            · intro s hs
              have : p = (tname, { name := tname, columns := [] }) := by simpa using h'
              rw [this] at hs
              exact absurd hs (by simp)
        · simp only [hb, if_false, Bool.false_eq_true]
          intro p hp
          rcases mem_setKey hp with h | h
          · rw [h]
            intro s hs
            simp only at hs
            exact absurd hs (by simp)
          · rcases List.mem_append.mp h with h' | h'
            · exact hinv p h'
            · intro s hs
              have : p = (tname, { name := tname, columns := [] }) := by simpa using h'
              rw [this] at hs
              exact absurd hs (by simp)
      | some table =>
        simp only [getOrCreateTable, hlook]
        have htok := hinv _ (lookupKey_mem hlook)
        by_cases hb : jsTruthyBool column.primaryKey
        · simp only [hb, if_true]
          apply fromSetKey
          intro s hs
          simp only at hs
          injection hs with hs
          simp [toSchemaColumn, ← hs]
        · simp only [hb, if_false, Bool.false_eq_true]
          apply fromSetKey
          intro s hs
          simp only at hs
          have hsrc := htok s hs
          rcases List.mem_map.mp hsrc with ⟨c, hc, hn⟩
          by_cases hcn : c.name = column.name
          · apply List.mem_map.mpr
            exact ⟨toSchemaColumn column, by simp, by simp [toSchemaColumn, ← hn, hcn]⟩
          · apply List.mem_map.mpr
            exact ⟨c, List.mem_append.mpr (Or.inl (List.mem_filter.mpr ⟨hc, by simp [hcn]⟩)), hn⟩
    | .ALTER_COLUMN_TYPE tname cname toType =>
      rw [applySqlOp]
      simp only
      match hlook : lookupKey tname tables with
      | none => simpa using hinv
      | some table =>
        simp only
        apply fromSetKey
        intro s hs
        simp only at hs
        refine mem_map_name_updateFirst ?_ (hinv _ (lookupKey_mem hlook) s hs)
        exact fun c => rfl
    | .SET_NOT_NULL tname cname =>
      rw [applySqlOp]
      simp only
      match hlook : lookupKey tname tables with
      | none => simpa using hinv
      | some table =>
        simp only
        apply fromSetKey
        intro s hs
        simp only at hs
        refine mem_map_name_updateFirst ?_ (hinv _ (lookupKey_mem hlook) s hs)
        exact fun c => rfl
    | .DROP_NOT_NULL tname cname =>
      rw [applySqlOp]
      simp only
      match hlook : lookupKey tname tables with
      | none => simpa using hinv
      | some table =>
        simp only
        apply fromSetKey
        intro s hs
        simp only at hs
        refine mem_map_name_updateFirst ?_ (hinv _ (lookupKey_mem hlook) s hs)
        exact fun c => rfl
    | .SET_DEFAULT tname cname expr =>
      rw [applySqlOp]
      simp only
      match hlook : lookupKey tname tables with
      | none => simpa using hinv
      | some table =>
        simp only
        apply fromSetKey
        intro s hs
        simp only at hs
        refine mem_map_name_updateFirst ?_ (hinv _ (lookupKey_mem hlook) s hs)
        exact fun c => rfl
    | .DROP_DEFAULT tname cname =>
      rw [applySqlOp]
      simp only
      match hlook : lookupKey tname tables with
      | none => simpa using hinv
      | some table =>
        simp only
        apply fromSetKey
        intro s hs
        simp only at hs
        refine mem_map_name_updateFirst ?_ (hinv _ (lookupKey_mem hlook) s hs)
        exact fun c => rfl
    | .ADD_CONSTRAINT tname constraint =>
      rw [applySqlOp]
      match hlook : lookupKey tname tables with
      | none => simpa using hinv
      | some table =>
        simp only
        match happ : applySingleColumnConstraint table constraint with
        | some t' =>
          simp only
          apply fromSetKey
          exact applySingleColumnConstraint_ok happ (hinv _ (lookupKey_mem hlook))
        | none => simpa using hinv
    | .DROP_CONSTRAINT tname nm =>
      rw [applySqlOp]
      match hlook : lookupKey tname tables with
      | none => simpa using hinv
      | some table =>
        simp only
        apply fromSetKey
        exact clearConstraintByName_ok table nm (hinv _ (lookupKey_mem hlook))
    | .DROP_COLUMN tname cname =>
      rw [applySqlOp]
      simp only
      match hlook : lookupKey tname tables with
      | none => simpa using hinv
      | some table =>
        simp only
        have htok := hinv _ (lookupKey_mem hlook)
        by_cases hpk : table.primaryKey = some cname
        · simp only [hpk, if_pos rfl]
          apply fromSetKey
          intro s hs
          exact absurd hs (by simp)
        · rw [if_neg (by simpa using hpk)]
          apply fromSetKey
          intro s hs
          simp only at hs
          have hsrc := htok s hs
          rcases List.mem_map.mp hsrc with ⟨c, hc, hn⟩
          have hne : c.name ≠ cname := by
            intro h
            apply hpk
            rw [hs, ← hn, h]
          exact List.mem_map.mpr ⟨c, List.mem_filter.mpr ⟨hc, by simp [hne]⟩, hn⟩
    | .DROP_TABLE tname =>
      rw [applySqlOp]
      intro p hp
      exact hinv p (mem_removeKey hp)
  refine ⟨step, ?_⟩
  have fold : ∀ (ops : List SqlOp) (tables : List (String × Table))
      (w : List ParseWarning),
      (∀ p ∈ tables, ∀ s, p.2.primaryKey = some s → s ∈ p.2.columns.map Column.name) →
      ∀ p ∈ (applySqlOpsFrom tables w ops).1, ∀ s, p.2.primaryKey = some s →
        s ∈ p.2.columns.map Column.name := by
    intro ops
    induction ops with
    | nil => intro tables w h; exact h
    | cons op rest ih =>
      intro tables w h
      rw [applySqlOpsFrom]
      exact ih _ _ (step tables op h)
  intro ops
  exact fold ops [] [] (by simp)

/-- C9 witness: a concrete replay state passed through an operation. -/
theorem c9_primary_key_invariant_witness :
    "id" ∈ (({ name := "t", columns := [{ name := "id", type := "uuid" }]
             , primaryKey := some "id" } : Table)).columns.map Column.name :=
  c9_primary_key_invariant.1
    [("t", { name := "t", columns := [{ name := "id", type := "uuid" }]
           , primaryKey := some "id" })]
    (.DROP_TABLE "other") (by decide)
    ("t", { name := "t", columns := [{ name := "id", type := "uuid" }]
          , primaryKey := some "id" }) (by decide) "id" rfl

/-! ## C6: one warning per unrecognized statement, never aborting -/

theorem parseMigrationSql_foldl (l : List String) (acc : ParseResult) :
    (l.foldl parseMigrationStep acc).ops =
      acc.ops ++ l.filterMap (fun raw =>
        let stmt := jsTrim (removeSqlComments raw)
        if stmt.isEmpty then none else runParsers PARSERS stmt) ∧
    (l.foldl parseMigrationStep acc).warnings =
      acc.warnings ++ l.filterMap (fun raw =>
        let stmt := jsTrim (removeSqlComments raw)
        if stmt.isEmpty then none
        else
          match runParsers PARSERS stmt with
          | some _ => none
          | none => some { statement := stmt
                         , reason := "Unsupported or unrecognized statement" }) := by
  induction l generalizing acc with
  | nil => simp
  | cons raw rest ih =>
    rw [List.foldl_cons, List.filterMap_cons, List.filterMap_cons]
    simp only [parseMigrationStep]
    by_cases hempty : (jsTrim (removeSqlComments raw)).isEmpty
    · simp only [hempty, if_true, if_pos]
      exact ih acc
    · simp only [hempty, if_false, Bool.false_eq_true, if_neg]
      match hrun : runParsers PARSERS (jsTrim (removeSqlComments raw)) with
      | some op =>
        rcases ih { acc with ops := acc.ops ++ [op] } with ⟨h1, h2⟩
        rw [h1, h2]
        simp
      | none =>
        rcases ih { acc with warnings := acc.warnings ++
          [{ statement := jsTrim (removeSqlComments raw)
           , reason := "Unsupported or unrecognized statement" }] } with ⟨h1, h2⟩
        rw [h1, h2]
        simp

/-- C6: every non-empty statement that no recognizer matches contributes
exactly zero operations and exactly one `{statement, reason}` warning, and
parsing continues across every statement (ops and warnings together account
for every non-empty comment-stripped statement); the `CREATE INDEX` example
yields zero ops and exactly one warning whose reason is the fixed
"Unsupported or unrecognized statement" text. -/
theorem c6_partial_failure_policy :
    (∀ sql : String,
      (parseMigrationSql sql).ops =
        (splitSqlStatements sql).filterMap (fun raw =>
          let stmt := jsTrim (removeSqlComments raw)
          if stmt.isEmpty then none else runParsers PARSERS stmt) ∧
      (parseMigrationSql sql).warnings =
        (splitSqlStatements sql).filterMap (fun raw =>
          let stmt := jsTrim (removeSqlComments raw)
          if stmt.isEmpty then none
          else
            match runParsers PARSERS stmt with
            | some _ => none
            | none => some { statement := stmt
                           , reason := "Unsupported or unrecognized statement" }) ∧
      (parseMigrationSql sql).ops.length + (parseMigrationSql sql).warnings.length =
        ((splitSqlStatements sql).map (fun raw => jsTrim (removeSqlComments raw))).countP
          (fun stmt => !stmt.isEmpty)) ∧
    parseMigrationSql "CREATE INDEX idx ON users(email);" =
      { ops := []
      , warnings := [{ statement := "CREATE INDEX idx ON users(email)"
                     , reason := "Unsupported or unrecognized statement" }] } := by
  constructor
  · intro sql
    rcases parseMigrationSql_foldl (splitSqlStatements sql) { ops := [], warnings := [] }
      with ⟨h1, h2⟩
    rw [parseMigrationSql] at *
    refine ⟨by rw [h1]; simp, by rw [h2]; simp, ?_⟩
    rw [h1, h2]
    simp only [List.nil_append]
    generalize splitSqlStatements sql = l
    induction l with
    | nil => simp
    | cons raw rest ih =>
      rw [List.filterMap_cons, List.filterMap_cons, List.map_cons, List.countP_cons]
      by_cases hempty : (jsTrim (removeSqlComments raw)).isEmpty
      · simp only [hempty, if_pos, if_true]
        simpa using ih
      · have hb : (jsTrim (removeSqlComments raw)).isEmpty = false := by
          cases h : (jsTrim (removeSqlComments raw)).isEmpty
          · rfl
          · exact absurd h hempty
        match hrun : runParsers PARSERS (jsTrim (removeSqlComments raw)) with
        | some op =>
          simp [hb, hrun]
          simp [List.countP_map] at ih
          omega
        | none =>
          simp [hb, hrun]
          simp [List.countP_map] at ih
          omega
  · rfl

/-! ## C5: semicolons only terminate statements in the default context -/

theorem splitAux_nil (n : Nat) (st : SplitState) (cur : List Char) (stmts : List String) :
    splitAux n st cur stmts [] = pushStatement stmts cur := by
  cases n <;> rfl

theorem trimChars_ne_nil (l : List Char) (c : Char) (hc : c ∈ l) (hw : isWs c = false) :
    trimChars l ≠ [] := by
  intro h
  rw [trimChars] at h
  have h2 : (((l.dropWhile isWs).reverse.dropWhile isWs)) = [] := by
    simpa using h
  rw [List.dropWhile_eq_nil_iff] at h2
  have hsplit := @List.takeWhile_append_dropWhile _ isWs l
  rw [← hsplit] at hc
  rcases List.mem_append.mp hc with h' | h'
  · have := List.mem_takeWhile_imp h'
    rw [this] at hw
    exact absurd hw (by simp)
  · have := h2 c (by simpa using h')
    rw [this] at hw
    exact absurd hw (by simp)

theorem splitAux_plain (cs : List Char)
    (h : ∀ c ∈ cs, c ∉ ([';', '\'', '"', '-', '/', '$'] : List Char)) :
    ∀ (n : Nat) (cur : List Char) (stmts : List String) (rest : List Char),
    splitAux (cs.length + n) {} cur stmts (cs ++ rest) =
      splitAux n {} (cs.reverse ++ cur) stmts rest := by
  induction cs with
  | nil => intro n cur stmts rest; simp
  | cons c cs' ih =>
    intro n cur stmts rest
    have hc := h c (by simp)
    have h1 : ¬ c = ';' := fun e => hc (by simp [e])
    have h2 : ¬ c = '\'' := fun e => hc (by simp [e])
    have h3 : ¬ c = '"' := fun e => hc (by simp [e])
    have h4 : ¬ c = '-' := fun e => hc (by simp [e])
    have h5 : ¬ c = '/' := fun e => hc (by simp [e])
    have h6 : ¬ c = '$' := fun e => hc (by simp [e])
    have hlen : (c :: cs').length + n = (cs'.length + n) + 1 := by simp; omega
    rw [List.cons_append, hlen, splitAux]
    simp only [h1, h2, h3, h4, h5, h6, if_false, Bool.false_eq_true, decide_eq_true_eq,
      Bool.and_eq_true, decide_eq_false, Bool.false_and, Bool.and_false, if_neg,
      not_false_eq_true]
    rw [ih (fun a ha => h a (by simp [ha])) n (c :: cur) stmts rest]
    simp

theorem splitAux_inSingleQuote (cs : List Char) (h : ∀ c ∈ cs, c ≠ '\'') :
    ∀ (n : Nat) (cur : List Char) (stmts : List String) (rest : List Char),
    splitAux (cs.length + n) { inSingleQuote := true } cur stmts (cs ++ rest) =
      splitAux n { inSingleQuote := true } (cs.reverse ++ cur) stmts rest := by
  induction cs with
  | nil => intro n cur stmts rest; simp
  | cons c cs' ih =>
    intro n cur stmts rest
    have h2 : ¬ c = '\'' := h c (by simp)
    have hlen : (c :: cs').length + n = (cs'.length + n) + 1 := by simp; omega
    rw [List.cons_append, hlen, splitAux]
    simp only [h2, if_false, Bool.false_eq_true, decide_eq_true_eq, Bool.and_eq_true,
      decide_eq_false, Bool.false_and, Bool.and_false, if_neg, not_false_eq_true]
    rw [ih (fun a ha => h a (by simp [ha])) n (c :: cur) stmts rest]
    simp

theorem splitAux_open_quote (n : Nat) (cur : List Char) (stmts : List String)
    (rest : List Char) :
    splitAux (n + 1) {} cur stmts ('\'' :: rest) =
      splitAux n { inSingleQuote := true } ('\'' :: cur) stmts rest := by
  rw [splitAux]
  simp

theorem splitAux_close_quote (n : Nat) (cur : List Char) (stmts : List String)
    (rest : List Char) (h : rest.head? ≠ some '\'') :
    splitAux (n + 1) { inSingleQuote := true } cur stmts ('\'' :: rest) =
      splitAux n {} ('\'' :: cur) stmts rest := by
  rw [splitAux]
  simp [h]

set_option maxRecDepth 4000

/-- C5: a `;` is a statement terminator only in the default lexical context.
Universally, any text of the form `a ++ "'" ++ m ++ "'" ++ b` — `a` and `b`
free of the splitter's special characters and `m` an arbitrary quoted body
without a quote character (it may contain `;`, `--`, `/*`, `$`) — is
returned as one single statement; and concretely a `;` inside a
double-quoted identifier, a line comment, a block comment, a dollar-quoted
block, or after doubled-quote escapes never splits, while the statement
containing the literal `'a;b'` comes back as one statement, not two. -/
theorem c5_semicolon_only_in_default_context :
    (∀ a m b : String,
      (∀ c ∈ a.toList, c ∉ ([';', '\'', '"', '-', '/', '$'] : List Char)) →
      (∀ c ∈ b.toList, c ∉ ([';', '\'', '"', '-', '/', '$'] : List Char)) →
      (∀ c ∈ m.toList, c ≠ '\'') →
      splitSqlStatements (a ++ "'" ++ m ++ "'" ++ b) =
        [jsTrim (a ++ "'" ++ m ++ "'" ++ b)]) ∧
    splitSqlStatements "ALTER TABLE t ADD COLUMN c text DEFAULT 'a;b'" =
      ["ALTER TABLE t ADD COLUMN c text DEFAULT 'a;b'"] ∧
    splitSqlStatements "select \"a;b\" from t" = ["select \"a;b\" from t"] ∧
    splitSqlStatements "select 1 -- c;d\n+ 2" = ["select 1 -- c;d\n+ 2"] ∧
    splitSqlStatements "select 1 /* c;d */ + 2" = ["select 1 /* c;d */ + 2"] ∧
    splitSqlStatements "select $tag$ a;b $tag$ x" = ["select $tag$ a;b $tag$ x"] ∧
    splitSqlStatements "select $$ a;b $$ x" = ["select $$ a;b $$ x"] ∧
    splitSqlStatements "select 'it''s; quoted'" = ["select 'it''s; quoted'"] ∧
    splitSqlStatements "select \"an\"\"id;x\"" = ["select \"an\"\"id;x\""] := by
  refine ⟨?_, rfl, rfl, rfl, rfl, rfl, rfl, rfl, rfl⟩
  intro a m b ha hb hm
  have hdata : (a ++ "'" ++ m ++ "'" ++ b).toList =
      a.toList ++ ('\'' :: (m.toList ++ '\'' :: b.toList)) := by
    simp [String.toList, String.data_append]
  rw [splitSqlStatements, hdata]
  have hlen : (a.toList ++ ('\'' :: (m.toList ++ '\'' :: b.toList))).length =
      a.toList.length + (m.toList.length + (b.toList.length + 1) + 1) := by
    simp only [List.length_append, List.length_cons]
  rw [hlen, splitAux_plain a.toList ha _ [] []]
  have hstep1 : m.toList.length + (b.toList.length + 1) + 1 =
      (m.toList.length + (b.toList.length + 1)) + 1 := rfl
  rw [hstep1, splitAux_open_quote]
  rw [splitAux_inSingleQuote m.toList hm (b.toList.length + 1)]
  have hhead : b.toList.head? ≠ some '\'' := by
    match hb2 : b.toList with
    | [] => simp
    | c :: rest =>
      simp only [List.head?]
      intro he
      injection he with he
      exact hb c (by rw [hb2]; simp) (by rw [he]; simp)
  rw [splitAux_close_quote _ _ _ _ hhead]
  simp only [List.append_nil]
  have happly := splitAux_plain b.toList hb 0
    ('\'' :: (m.toList.reverse ++ '\'' :: a.toList.reverse)) [] []
  simp only [List.append_nil] at happly
  have hzero : b.toList.length = b.toList.length + 0 := rfl
  rw [hzero, happly, splitAux_nil]
  rw [pushStatement]
  have hrev : (b.toList.reverse ++ '\'' :: (m.toList.reverse ++ '\'' :: a.toList.reverse)).reverse =
      a.toList ++ ('\'' :: (m.toList ++ '\'' :: b.toList)) := by
    simp
  rw [hrev]
  have hne : trimChars (a.toList ++ ('\'' :: (m.toList ++ '\'' :: b.toList))) ≠ [] :=
    trimChars_ne_nil _ '\'' (by simp) rfl
  rw [if_neg (by simpa using hne)]
  have : jsTrim (a ++ "'" ++ m ++ "'" ++ b) =
      ⟨trimChars (a.toList ++ ('\'' :: (m.toList ++ '\'' :: b.toList)))⟩ := by
    rw [jsTrim, hdata]
  rw [this]
  rfl

/-- C5 witness: the universal part applied at a concrete quoted `;`. -/
theorem c5_semicolon_only_in_default_context_witness :
    splitSqlStatements "UPDATE t SET x = 'a;b' WHERE y = 1" =
      ["UPDATE t SET x = 'a;b' WHERE y = 1"] := by
  have h := c5_semicolon_only_in_default_context.1 "UPDATE t SET x = " "a;b"
    " WHERE y = 1" (by decide) (by decide) (by decide)
  rw [show ("UPDATE t SET x = " ++ "'" ++ "a;b" ++ "'" ++ " WHERE y = 1" : String) =
    "UPDATE t SET x = 'a;b' WHERE y = 1" from rfl] at h
  rw [h]
  rfl

/-! ## C2: diffing a schema against its own re-derived state is empty -/

theorem mem_jsSetDedupAux (a : String) (seen l : List String) :
    a ∈ jsSetDedupAux seen l ↔ a ∈ l ∧ a ∉ seen := by
  induction l generalizing seen with
  | nil => simp [jsSetDedupAux]
  | cons k rest ih =>
    rw [jsSetDedupAux]
    by_cases hk : seen.contains k
    · rw [if_pos hk]
      rw [ih]
      constructor
      · rintro ⟨h1, h2⟩
        exact ⟨List.mem_cons_of_mem _ h1, h2⟩
      · rintro ⟨h1, h2⟩
        rcases List.mem_cons.mp h1 with h' | h'
        · exact absurd (h' ▸ List.elem_iff.mp hk) h2
        · exact ⟨h', h2⟩
    · rw [if_neg hk]
      constructor
      · intro h
        rcases List.mem_cons.mp h with h' | h'
        · subst h'
          refine ⟨by simp, fun hseen => hk (List.elem_iff.mpr hseen)⟩
        · rcases (ih (k :: seen)).mp h' with ⟨h1, h2⟩
          exact ⟨List.mem_cons_of_mem _ h1, fun hseen => h2 (List.mem_cons_of_mem _ hseen)⟩
      · rintro ⟨h1, h2⟩
        rcases List.mem_cons.mp h1 with h' | h'
        · subst h'
          exact List.mem_cons_self _ _
        · by_cases hak : a = k
          · subst hak
            exact List.mem_cons_self _ _
          · exact List.mem_cons_of_mem _
              ((ih (k :: seen)).mpr ⟨h', by simp [hak, h2]⟩)

theorem mem_jsSetDedup (a : String) (l : List String) :
    a ∈ jsSetDedup l ↔ a ∈ l := by
  rw [jsSetDedup, mem_jsSetDedupAux]
  simp

theorem mem_sortNames (a : String) (l : List String) :
    a ∈ sortNames l ↔ a ∈ l :=
  (List.perm_insertionSort _ l).mem_iff

theorem lookupKey_map_pair {α β : Type} (f : α → β) (k : String)
    (l : List (String × α)) :
    lookupKey k (l.map fun p => (p.1, f p.2)) = (lookupKey k l).map f := by
  induction l with
  | nil => rfl
  | cons p rest ih =>
    by_cases hp : p.1 = k
    · simp [lookupKey, hp]
    · simp [lookupKey, hp, ih]

theorem lookupKey_by_name {β : Type} (g : Column → β) (k : String)
    (cols : List Column) :
    lookupKey k (cols.map fun c => (c.name, g c)) =
      (cols.find? fun c => c.name = k).map g := by
  induction cols with
  | nil => rfl
  | cons c rest ih =>
    by_cases hc : c.name = k
    · simp [lookupKey, List.find?, hc]
    · simp only [List.map_cons, lookupKey, hc, if_false, List.find?_cons, ih]
      simp [hc]

theorem find?_name_of_nodup {cols : List Column} {col : Column}
    (hnd : (cols.map Column.name).Nodup) (hmem : col ∈ cols) :
    cols.find? (fun c => c.name = col.name) = some col := by
  induction cols with
  | nil => simp at hmem
  | cons d rest ih =>
    rw [List.map_cons, List.nodup_cons] at hnd
    by_cases hd : d.name = col.name
    · have hcd : col = d := by
        rcases List.mem_cons.mp hmem with h' | h'
        · exact h'
        · exact absurd (hd ▸ List.mem_map.mpr ⟨col, h', rfl⟩) hnd.1
      rw [hcd, List.find?_cons]
      simp
    · have hcol : col ∈ rest := by
        rcases List.mem_cons.mp hmem with h' | h'
        · exact absurd (congrArg Column.name h'.symm) hd
        · exact h'
      have hdec : decide (d.name = col.name) = false := by simp [hd]
      rw [List.find?_cons, hdec]
      exact ih hnd.2 hcol

theorem resolveState_toStateTable (t : Table) :
    resolveStatePrimaryKey (toStateTable t) = resolveSchemaPrimaryKey t := by
  rw [resolveStatePrimaryKey, resolveSchemaPrimaryKey, toStateTable]
  match t.primaryKey with
  | some s => rfl
  | none =>
    simp only
    rw [List.find?_map _ _]
    rw [Option.map_map]
    have hpred : ((fun (p : String × StateColumn) => decide (p.2.primaryKey = some true)) ∘
        (fun c => (c.name, toStateColumn c))) =
        (fun (c : Column) => decide (c.primaryKey = some true)) := rfl
    rw [hpred]
    rfl

theorem keys_schemaToState (schema : DatabaseSchema) :
    (schemaToState schema).tables.map Prod.fst = schema.tables.map Prod.fst := by
  rw [schemaToState]
  simp [List.map_map, Function.comp]

/-- C2: for every DeclaredSchema whose tables have no duplicate column
names, diffing the state re-derived from it (`schemaToState`) against the
schema itself yields an empty operation list. -/
theorem c2_idempotence (schema : DatabaseSchema)
    (hcols : ∀ p ∈ schema.tables, (p.2.columns.map Column.name).Nodup) :
    diffSchemas (schemaToState schema) schema = { operations := [] } := by
  have hkeys : getTableNamesFromState (schemaToState schema) =
      getTableNamesFromSchema schema := by
    rw [getTableNamesFromState, getTableNamesFromSchema, keys_schemaToState]
  have hlook : ∀ tn, lookupKey tn (schemaToState schema).tables =
      (lookupKey tn schema.tables).map toStateTable := by
    intro tn
    rw [schemaToState]
    exact lookupKey_map_pair toStateTable tn schema.tables
  have hsome : ∀ tn ∈ getSortedNames (getTableNamesFromSchema schema),
      ∃ t, lookupKey tn schema.tables = some t := by
    intro tn htn
    rw [getSortedNames, mem_sortNames, getTableNamesFromSchema, mem_jsSetDedup] at htn
    match hv : lookupKey tn schema.tables with
    | some t => exact ⟨t, rfl⟩
    | none => exact absurd htn ((lookupKey_eq_none_iff tn schema.tables).mp hv)
  have hcontains : ∀ tn ∈ getSortedNames (getTableNamesFromSchema schema),
      (getTableNamesFromState (schemaToState schema)).contains tn = true := by
    intro tn htn
    rw [hkeys]
    rw [getSortedNames, mem_sortNames] at htn
    exact List.elem_iff.mpr htn
  have hcommon : commonTableNames (schemaToState schema) schema =
      getSortedNames (getTableNamesFromSchema schema) := by
    rw [commonTableNames]
    exact List.filter_eq_self.mpr hcontains
  have hstateLookup : ∀ (tn : String) (t : Table), lookupKey tn schema.tables = some t →
      lookupKey tn (schemaToState schema).tables = some (toStateTable t) := by
    intro tn t ht
    rw [hlook tn, ht]
    rfl
  have hcolLookup : ∀ (t : Table) (tn : String), lookupKey tn schema.tables = some t →
      ∀ col ∈ t.columns,
        lookupKey col.name (toStateTable t).columns = some (toStateColumn col) := by
    intro t tn hfound col hcol
    have hnd := hcols _ (lookupKey_mem hfound)
    rw [toStateTable]
    simp only
    rw [lookupKey_by_name, find?_name_of_nodup hnd hcol]
    rfl
  rw [diffSchemas]
  have h1 : diffPhase1 (schemaToState schema) schema = [] := by
    rw [diffPhase1, List.filterMap_eq_nil_iff]
    intro tn htn
    rw [if_pos (hcontains tn htn)]
  have h8 : diffPhase8 (schemaToState schema) schema = [] := by
    rw [diffPhase8, List.filterMap_eq_nil_iff]
    intro tn htn
    rw [hkeys] at htn
    rw [getSortedNames, mem_sortNames] at htn
    rw [if_pos (List.elem_iff.mpr htn)]
  have h2 : diffPhase2 (schemaToState schema) schema = [] := by
    rw [diffPhase2, List.flatMap_eq_nil_iff]
    intro tn htn
    rw [hcommon] at htn
    obtain ⟨t, ht⟩ := hsome tn htn
    rw [ht, hstateLookup tn t ht]
    refine List.filterMap_eq_nil_iff.mpr ?_
    intro col hcol
    rw [hcolLookup t tn ht col hcol]
    exact if_neg (fun h => h rfl)
  have h4 : diffPhase4 (schemaToState schema) schema = [] := by
    rw [diffPhase4, List.flatMap_eq_nil_iff]
    intro tn htn
    rw [hcommon] at htn
    obtain ⟨t, ht⟩ := hsome tn htn
    rw [ht, hstateLookup tn t ht]
    refine List.filterMap_eq_nil_iff.mpr ?_
    intro col hcol
    rw [hcolLookup t tn ht col hcol]
    exact if_neg (fun h => h rfl)
  have h5 : diffPhase5 (schemaToState schema) schema = [] := by
    rw [diffPhase5, List.flatMap_eq_nil_iff]
    intro tn htn
    rw [hcommon] at htn
    obtain ⟨t, ht⟩ := hsome tn htn
    rw [ht, hstateLookup tn t ht]
    refine List.filterMap_eq_nil_iff.mpr ?_
    intro col hcol
    have hcontains2 : (getColumnNamesFromState (toStateTable t).columns).contains
        col.name = true := by
      rw [getColumnNamesFromState, toStateTable]
      apply List.elem_iff.mpr
      rw [mem_jsSetDedup]
      simp only [List.map_map]
      exact List.mem_map.mpr ⟨col, hcol, rfl⟩
    exact if_pos hcontains2
  have h3 : diffPhase3 (schemaToState schema) schema = [] := by
    rw [diffPhase3, List.filterMap_eq_nil_iff]
    intro tn htn
    rw [hcommon] at htn
    obtain ⟨t, ht⟩ := hsome tn htn
    rw [ht, hstateLookup tn t ht]
    have hres := resolveState_toStateTable t
    match hv : resolveSchemaPrimaryKey t with
    | none =>
      rw [hv] at hres
      show (match resolveStatePrimaryKey (toStateTable t) with
        | none => none
        | some previousPrimaryKey =>
          if some previousPrimaryKey ≠ resolveSchemaPrimaryKey t then
            some (Operation.drop_primary_key_constraint tn)
          else none) = none
      rw [hres]
    | some p =>
      rw [hv] at hres
      show (match resolveStatePrimaryKey (toStateTable t) with
        | none => none
        | some previousPrimaryKey =>
          if some previousPrimaryKey ≠ resolveSchemaPrimaryKey t then
            some (Operation.drop_primary_key_constraint tn)
          else none) = none
      rw [hres, hv]
      exact if_neg (fun h => h rfl)
  have h6 : diffPhase6 (schemaToState schema) schema = [] := by
    rw [diffPhase6, List.filterMap_eq_nil_iff]
    intro tn htn
    rw [hcommon] at htn
    obtain ⟨t, ht⟩ := hsome tn htn
    rw [ht, hstateLookup tn t ht]
    have hres := resolveState_toStateTable t
    match hv : resolveSchemaPrimaryKey t with
    | none =>
      rw [hv] at hres
      show (match resolveSchemaPrimaryKey t with
        | none => none
        | some currentPrimaryKey =>
          if resolveStatePrimaryKey (toStateTable t) ≠ some currentPrimaryKey then
            some (Operation.add_primary_key_constraint tn currentPrimaryKey)
          else none) = none
      rw [hv]
    | some p =>
      rw [hv] at hres
      show (match resolveSchemaPrimaryKey t with
        | none => none
        | some currentPrimaryKey =>
          if resolveStatePrimaryKey (toStateTable t) ≠ some currentPrimaryKey then
            some (Operation.add_primary_key_constraint tn currentPrimaryKey)
          else none) = none
      rw [hv, hres]
      exact if_neg (fun h => h rfl)
  have h7 : diffPhase7 (schemaToState schema) schema = [] := by
    rw [diffPhase7, List.flatMap_eq_nil_iff]
    intro tn htn
    rw [hcommon] at htn
    obtain ⟨t, ht⟩ := hsome tn htn
    rw [ht, hstateLookup tn t ht]
    refine List.filterMap_eq_nil_iff.mpr ?_
    intro cn hcn
    rw [toStateTable] at hcn
    simp only [List.map_map] at hcn
    rcases List.mem_map.mp hcn with ⟨col, hcol, hname⟩
    have hcontains2 : (getColumnNamesFromSchema t.columns).contains cn = true := by
      rw [getColumnNamesFromSchema]
      apply List.elem_iff.mpr
      rw [mem_jsSetDedup]
      exact List.mem_map.mpr ⟨col, hcol, hname⟩
    exact if_pos hcontains2
  rw [h1, h2, h3, h4, h5, h6, h7, h8]
  rfl

/-- C2 witness: a concrete schema diffs to nothing against its own state. -/
theorem c2_idempotence_witness :
    diffSchemas
      (schemaToState { tables := [("users",
        { name := "users"
        , columns := [{ name := "id", type := "uuid", primaryKey := some true },
                      { name := "email", type := "varchar", unique := some true }] })] })
      { tables := [("users",
        { name := "users"
        , columns := [{ name := "id", type := "uuid", primaryKey := some true },
                      { name := "email", type := "varchar", unique := some true }] })] } =
      { operations := [] } :=
  c2_idempotence _ (by decide)

/-! ## C1: determinism under key-order permutation -/

theorem charListLe_total : ∀ x y : List Char,
    charListLe x y = true ∨ charListLe y x = true := by
  intro x
  induction x with
  | nil => intro y; left; rfl
  | cons c cs ih =>
    intro y
    match y with
    | [] => right; rfl
    | d :: ds =>
      rcases lt_trichotomy c d with h | h | h
      · left; simp [charListLe, h]
      · subst h
        rcases ih ds with h' | h'
        · left; simp [charListLe, lt_irrefl, h']
        · right; simp [charListLe, lt_irrefl, h']
      · right; simp [charListLe, h]

theorem charListLe_trans : ∀ x y z : List Char,
    charListLe x y = true → charListLe y z = true → charListLe x z = true := by
  intro x
  induction x with
  | nil => intro y z _ _; rfl
  | cons c cs ih =>
    intro y z h1 h2
    match y, z with
    | [], _ => simp [charListLe] at h1
    | _ :: _, [] => simp [charListLe] at h2
    | d :: ds, e :: es =>
      rcases lt_trichotomy c d with hcd | hcd | hcd
      · rcases lt_trichotomy d e with hde | hde | hde
        · simp [charListLe, lt_trans hcd hde]
        · subst hde; simp [charListLe, hcd]
        · rw [charListLe, if_neg (lt_asymm hde), if_pos hde] at h2
          exact absurd h2 (by simp)
      · subst hcd
        rw [charListLe, if_neg (lt_irrefl c), if_neg (lt_irrefl c)] at h1
        rcases lt_trichotomy c e with hce | hce | hce
        · simp [charListLe, hce]
        · subst hce
          rw [charListLe, if_neg (lt_irrefl c), if_neg (lt_irrefl c)] at h2 ⊢
          exact ih ds es h1 h2
        · rw [charListLe, if_neg (lt_asymm hce), if_pos hce] at h2
          exact absurd h2 (by simp)
      · rw [charListLe, if_neg (lt_asymm hcd), if_pos hcd] at h1
        exact absurd h1 (by simp)

theorem charListLe_antisymm : ∀ x y : List Char,
    charListLe x y = true → charListLe y x = true → x = y := by
  intro x
  induction x with
  | nil =>
    intro y _ h2
    match y with
    | [] => rfl
    | d :: ds => simp [charListLe] at h2
  | cons c cs ih =>
    intro y h1 h2
    match y with
    | [] => simp [charListLe] at h1
    | d :: ds =>
      rcases lt_trichotomy c d with hcd | hcd | hcd
      · rw [charListLe, if_neg (lt_asymm hcd), if_pos hcd] at h2
        exact absurd h2 (by simp)
      · subst hcd
        rw [charListLe, if_neg (lt_irrefl c), if_neg (lt_irrefl c)] at h1 h2
        rw [ih ds h1 h2]
      · rw [charListLe, if_neg (lt_asymm hcd), if_pos hcd] at h1
        exact absurd h1 (by simp)

theorem string_toList_inj {a b : String} (h : a.toList = b.toList) : a = b := by
  cases a
  cases b
  exact congrArg String.mk (by simpa [String.toList] using h)

theorem sortNames_eq_of_perm {l1 l2 : List String} (hp : l1.Perm l2) :
    sortNames l1 = sortNames l2 := by
  have htrans : IsTrans String (fun a b => charListLe a.toList b.toList = true) :=
    ⟨fun a b c => charListLe_trans a.toList b.toList c.toList⟩
  have htot : IsTotal String (fun a b => charListLe a.toList b.toList = true) :=
    ⟨fun a b => charListLe_total a.toList b.toList⟩
  have hanti : IsAntisymm String (fun a b => charListLe a.toList b.toList = true) :=
    ⟨fun a b h1 h2 => string_toList_inj (charListLe_antisymm _ _ h1 h2)⟩
  have hs1 := @List.sorted_insertionSort String
    (fun a b => charListLe a.toList b.toList = true) _ htot htrans l1
  have hs2 := @List.sorted_insertionSort String
    (fun a b => charListLe a.toList b.toList = true) _ htot htrans l2
  have hperm : (sortNames l1).Perm (sortNames l2) :=
    ((List.perm_insertionSort _ l1).trans hp).trans (List.perm_insertionSort _ l2).symm
  exact @List.eq_of_perm_of_sorted String
    (fun a b => charListLe a.toList b.toList = true) hanti _ _ hperm hs1 hs2

theorem jsSetDedupAux_of_nodup : ∀ (l seen : List String),
    l.Nodup → (∀ a ∈ l, a ∉ seen) → jsSetDedupAux seen l = l := by
  intro l
  induction l with
  | nil => intro seen _ _; rfl
  | cons k rest ih =>
    intro seen hnd hdisj
    rw [List.nodup_cons] at hnd
    rw [jsSetDedupAux, if_neg (fun hc => hdisj k (by simp) (List.elem_iff.mp hc))]
    rw [ih (k :: seen) hnd.2]
    intro a ha hmem
    rcases List.mem_cons.mp hmem with h' | h'
    · exact hnd.1 (h' ▸ ha)
    · exact hdisj a (List.mem_cons_of_mem _ ha) h'

theorem jsSetDedup_of_nodup {l : List String} (hnd : l.Nodup) : jsSetDedup l = l :=
  jsSetDedupAux_of_nodup l [] hnd (by simp)

theorem contains_eq_of_perm {l1 l2 : List String} (hp : l1.Perm l2) (a : String) :
    l1.contains a = l2.contains a := by
  cases h1 : l1.contains a <;> cases h2 : l2.contains a
  · rfl
  · have hc : l1.contains a = true :=
      List.elem_iff.mpr (hp.mem_iff.mpr (List.elem_iff.mp h2))
    rw [h1] at hc
    exact Bool.noConfusion hc
  · have hc : l2.contains a = true :=
      List.elem_iff.mpr (hp.mem_iff.mp (List.elem_iff.mp h1))
    rw [h2] at hc
    exact Bool.noConfusion hc
  · rfl

theorem lookupKey_eq_some_iff {α : Type} {l : List (String × α)}
    (hnd : (l.map Prod.fst).Nodup) (k : String) (v : α) :
    lookupKey k l = some v ↔ (k, v) ∈ l := by
  induction l with
  | nil => simp [lookupKey]
  | cons p rest ih =>
    rw [List.map_cons, List.nodup_cons] at hnd
    by_cases hp : p.1 = k
    · rw [lookupKey, if_pos hp]
      constructor
      · intro h
        injection h with h
        cases p
        cases hp
        cases h
        exact List.mem_cons_self _ _
      · intro h
        rcases List.mem_cons.mp h with h' | h'
        · rw [← h']
        · exact absurd (hp ▸ List.mem_map.mpr ⟨(k, v), h', rfl⟩) hnd.1
    · rw [lookupKey, if_neg hp]
      rw [ih hnd.2]
      constructor
      · exact fun h => List.mem_cons_of_mem _ h
      · intro h
        rcases List.mem_cons.mp h with h' | h'
        · exact absurd (congrArg Prod.fst h'.symm) hp
        · exact h'

theorem lookupKey_eq_of_perm {α : Type} {l1 l2 : List (String × α)}
    (hp : l1.Perm l2) (hnd : (l1.map Prod.fst).Nodup) (k : String) :
    lookupKey k l1 = lookupKey k l2 := by
  have hnd2 : (l2.map Prod.fst).Nodup := ((hp.map Prod.fst).nodup_iff).mp hnd
  match h1 : lookupKey k l1 with
  | some v =>
    exact ((lookupKey_eq_some_iff hnd2 k v).mpr
      (hp.mem_iff.mp ((lookupKey_eq_some_iff hnd k v).mp h1))).symm
  | none =>
    match h2 : lookupKey k l2 with
    | none => rfl
    | some v =>
      have := (lookupKey_eq_some_iff hnd2 k v).mp h2
      have hmem := hp.mem_iff.mpr this
      exact absurd ((lookupKey_eq_some_iff hnd k v).mpr hmem) (by simp [h1])

theorem flatMap_congr_left {α β : Type} {l : List α} {f g : α → List β}
    (h : ∀ a ∈ l, f a = g a) : l.flatMap f = l.flatMap g := by
  induction l with
  | nil => rfl
  | cons a rest ih =>
    rw [List.flatMap_cons, List.flatMap_cons, h a (by simp),
      ih fun x hx => h x (List.mem_cons_of_mem _ hx)]

/-- C1 (amended): `diffSchemas` is invariant under permuting the key order
of the two top-level `tables` maps (the spec's claim); invariance does NOT
extend to the old state's per-table columns map, refuted separately. -/
theorem c1_amended (old1 old2 : StateFile) (new1 new2 : DatabaseSchema)
    (hop : old1.tables.Perm old2.tables)
    (hond : (old1.tables.map Prod.fst).Nodup)
    (hnp : new1.tables.Perm new2.tables)
    (hnnd : (new1.tables.map Prod.fst).Nodup) :
    diffSchemas old1 new1 = diffSchemas old2 new2 := by
  have hond2 : (old2.tables.map Prod.fst).Nodup := ((hop.map Prod.fst).nodup_iff).mp hond
  have hnnd2 : (new2.tables.map Prod.fst).Nodup := ((hnp.map Prod.fst).nodup_iff).mp hnnd
  have hOldNamesPerm : (getTableNamesFromState old1).Perm (getTableNamesFromState old2) := by
    rw [getTableNamesFromState, getTableNamesFromState,
      jsSetDedup_of_nodup hond, jsSetDedup_of_nodup hond2]
    exact hop.map Prod.fst
  have hNewNamesPerm : (getTableNamesFromSchema new1).Perm (getTableNamesFromSchema new2) := by
    rw [getTableNamesFromSchema, getTableNamesFromSchema,
      jsSetDedup_of_nodup hnnd, jsSetDedup_of_nodup hnnd2]
    exact hnp.map Prod.fst
  have hSortedNew : getSortedNames (getTableNamesFromSchema new1) =
      getSortedNames (getTableNamesFromSchema new2) :=
    sortNames_eq_of_perm hNewNamesPerm
  have hSortedOld : getSortedNames (getTableNamesFromState old1) =
      getSortedNames (getTableNamesFromState old2) :=
    sortNames_eq_of_perm hOldNamesPerm
  have hContainsOld : ∀ a, (getTableNamesFromState old1).contains a =
      (getTableNamesFromState old2).contains a :=
    contains_eq_of_perm hOldNamesPerm
  have hContainsNew : ∀ a, (getTableNamesFromSchema new1).contains a =
      (getTableNamesFromSchema new2).contains a :=
    contains_eq_of_perm hNewNamesPerm
  have hLookOld : ∀ k, lookupKey k old1.tables = lookupKey k old2.tables :=
    lookupKey_eq_of_perm hop hond
  have hLookNew : ∀ k, lookupKey k new1.tables = lookupKey k new2.tables :=
    lookupKey_eq_of_perm hnp hnnd
  have hCommon : commonTableNames old1 new1 = commonTableNames old2 new2 := by
    rw [commonTableNames, commonTableNames, hSortedNew]
    exact List.filter_congr fun a _ => by rw [hContainsOld a]
  rw [diffSchemas, diffSchemas]
  have h1 : diffPhase1 old1 new1 = diffPhase1 old2 new2 := by
    rw [diffPhase1, diffPhase1, hSortedNew]
    exact List.filterMap_congr fun a _ => by rw [hContainsOld a, hLookNew a]
  have h2 : diffPhase2 old1 new1 = diffPhase2 old2 new2 := by
    rw [diffPhase2, diffPhase2, hCommon]
    exact flatMap_congr_left fun a _ => by rw [hLookNew a, hLookOld a]
  have h3 : diffPhase3 old1 new1 = diffPhase3 old2 new2 := by
    rw [diffPhase3, diffPhase3, hCommon]
    exact List.filterMap_congr fun a _ => by rw [hLookNew a, hLookOld a]
  have h4 : diffPhase4 old1 new1 = diffPhase4 old2 new2 := by
    rw [diffPhase4, diffPhase4, hCommon]
    exact flatMap_congr_left fun a _ => by rw [hLookNew a, hLookOld a]
  have h5 : diffPhase5 old1 new1 = diffPhase5 old2 new2 := by
    rw [diffPhase5, diffPhase5, hCommon]
    exact flatMap_congr_left fun a _ => by rw [hLookNew a, hLookOld a]
  have h6 : diffPhase6 old1 new1 = diffPhase6 old2 new2 := by
    rw [diffPhase6, diffPhase6, hCommon]
    exact List.filterMap_congr fun a _ => by rw [hLookNew a, hLookOld a]
  have h7 : diffPhase7 old1 new1 = diffPhase7 old2 new2 := by
    rw [diffPhase7, diffPhase7, hCommon]
    exact flatMap_congr_left fun a _ => by rw [hLookNew a, hLookOld a]
  have h8 : diffPhase8 old1 new1 = diffPhase8 old2 new2 := by
    rw [diffPhase8, diffPhase8, hSortedOld]
    exact List.filterMap_congr fun a _ => by rw [hContainsNew a]
  rw [h1, h2, h3, h4, h5, h6, h7, h8]

/-- C1 witness: the amended determinism applied to concrete permuted
table maps. -/
theorem c1_amended_witness :
    diffSchemas
      { version := 1
      , tables := [("a", { columns := [("x", { type := "text" })] }),
                   ("b", { columns := [("y", { type := "int" })] })] }
      { tables := [("b", { name := "b", columns := [{ name := "y", type := "int" }] }),
                   ("c", { name := "c", columns := [{ name := "z", type := "text" }] })] } =
    diffSchemas
      { version := 1
      , tables := [("b", { columns := [("y", { type := "int" })] }),
                   ("a", { columns := [("x", { type := "text" })] })] }
      { tables := [("c", { name := "c", columns := [{ name := "z", type := "text" }] }),
                   ("b", { name := "b", columns := [{ name := "y", type := "int" }] })] } :=
  c1_amended _ _ _ _ (by decide) (by decide) (by decide) (by decide)

/-- C1 counterexample: permuting the key order of the old state's per-table
columns map changes the emitted operation sequence — the phase-7
`drop_column` operations follow the old columns' key order, so the claim as
stated (invariance under permuting the old state's per-table columns map)
is false. -/
theorem c1_counterexample :
    List.Perm
      ([("a", { type := "text" }), ("b", { type := "text" })] :
        List (String × StateColumn))
      [("b", { type := "text" }), ("a", { type := "text" })] ∧
    diffSchemas
      { version := 1
      , tables := [("t", { columns := [("a", { type := "text" }),
                                       ("b", { type := "text" })] })] }
      { tables := [("t", { name := "t", columns := [{ name := "c", type := "text" }] })] } =
      { operations := [.add_column "t" { name := "c", type := "text" },
                       .drop_column "t" "a", .drop_column "t" "b"] } ∧
    diffSchemas
      { version := 1
      , tables := [("t", { columns := [("b", { type := "text" }),
                                       ("a", { type := "text" })] })] }
      { tables := [("t", { name := "t", columns := [{ name := "c", type := "text" }] })] } =
      { operations := [.add_column "t" { name := "c", type := "text" },
                       .drop_column "t" "b", .drop_column "t" "a"] } ∧
    diffSchemas
      { version := 1
      , tables := [("t", { columns := [("a", { type := "text" }),
                                       ("b", { type := "text" })] })] }
      { tables := [("t", { name := "t", columns := [{ name := "c", type := "text" }] })] } ≠
    diffSchemas
      { version := 1
      , tables := [("t", { columns := [("b", { type := "text" }),
                                       ("a", { type := "text" })] })] }
      { tables := [("t", { name := "t", columns := [{ name := "c", type := "text" }] })] } := by
  refine ⟨by decide, by decide, by decide, by decide⟩

/-! ## C3: ordering of PK constraint operations vs add_column -/

theorem mem_diffPhase1_shape (o : StateFile) (n : DatabaseSchema) :
    ∀ x ∈ diffPhase1 o n, ∃ t, x = Operation.create_table t := by
  intro x hx
  rw [diffPhase1] at hx
  rcases List.mem_filterMap.mp hx with ⟨tn, _, heq⟩
  split at heq
  · exact Option.noConfusion heq
  · rcases Option.map_eq_some'.mp heq with ⟨t, _, hxe⟩
    exact ⟨t, hxe.symm⟩

theorem mem_diffPhase2_shape (o : StateFile) (n : DatabaseSchema) :
    ∀ x ∈ diffPhase2 o n, ∃ a b c d, x = Operation.column_type_changed a b c d := by
  intro x hx
  rw [diffPhase2] at hx
  rcases List.mem_flatMap.mp hx with ⟨tn, _, hmem⟩
  split at hmem
  · rcases List.mem_filterMap.mp hmem with ⟨c, _, heq⟩
    split at heq
    · exact Option.noConfusion heq
    · split at heq
      · exact ⟨_, _, _, _, (Option.some.inj heq).symm⟩
      · exact Option.noConfusion heq
  · exact absurd hmem (List.not_mem_nil x)

theorem mem_diffPhase3_shape (o : StateFile) (n : DatabaseSchema) :
    ∀ x ∈ diffPhase3 o n, ∃ t, x = Operation.drop_primary_key_constraint t := by
  intro x hx
  rw [diffPhase3] at hx
  rcases List.mem_filterMap.mp hx with ⟨tn, _, heq⟩
  split at heq
  · split at heq
    · exact Option.noConfusion heq
    · split at heq
      · exact ⟨_, (Option.some.inj heq).symm⟩
      · exact Option.noConfusion heq
  · exact Option.noConfusion heq

theorem mem_diffPhase4_shape (o : StateFile) (n : DatabaseSchema) :
    ∀ x ∈ diffPhase4 o n, ∃ a b f u, x = Operation.column_unique_changed a b f u := by
  intro x hx
  rw [diffPhase4] at hx
  rcases List.mem_flatMap.mp hx with ⟨tn, _, hmem⟩
  split at hmem
  · rcases List.mem_filterMap.mp hmem with ⟨c, _, heq⟩
    split at heq
    · exact Option.noConfusion heq
    · simp only [ne_eq] at heq
      split at heq
      · exact ⟨_, _, _, _, (Option.some.inj heq).symm⟩
      · exact Option.noConfusion heq
  · exact absurd hmem (List.not_mem_nil x)

theorem mem_diffPhase5_shape (o : StateFile) (n : DatabaseSchema) :
    ∀ x ∈ diffPhase5 o n, ∃ t c, x = Operation.add_column t c := by
  intro x hx
  rw [diffPhase5] at hx
  rcases List.mem_flatMap.mp hx with ⟨tn, _, hmem⟩
  split at hmem
  · rcases List.mem_filterMap.mp hmem with ⟨c, _, heq⟩
    split at heq
    · exact Option.noConfusion heq
    · exact ⟨_, _, (Option.some.inj heq).symm⟩
  · exact absurd hmem (List.not_mem_nil x)

theorem mem_diffPhase6_shape (o : StateFile) (n : DatabaseSchema) :
    ∀ x ∈ diffPhase6 o n, ∃ t c, x = Operation.add_primary_key_constraint t c := by
  intro x hx
  rw [diffPhase6] at hx
  rcases List.mem_filterMap.mp hx with ⟨tn, _, heq⟩
  split at heq
  · split at heq
    · exact Option.noConfusion heq
    · split at heq
      · exact ⟨_, _, (Option.some.inj heq).symm⟩
      · exact Option.noConfusion heq
  · exact Option.noConfusion heq

theorem mem_diffPhase7_shape (o : StateFile) (n : DatabaseSchema) :
    ∀ x ∈ diffPhase7 o n, ∃ t c, x = Operation.drop_column t c := by
  intro x hx
  rw [diffPhase7] at hx
  rcases List.mem_flatMap.mp hx with ⟨tn, _, hmem⟩
  split at hmem
  · rcases List.mem_filterMap.mp hmem with ⟨c, _, heq⟩
    split at heq
    · exact Option.noConfusion heq
    · exact ⟨_, _, (Option.some.inj heq).symm⟩
  · exact absurd hmem (List.not_mem_nil x)

theorem mem_diffPhase8_shape (o : StateFile) (n : DatabaseSchema) :
    ∀ x ∈ diffPhase8 o n, ∃ t, x = Operation.drop_table t := by
  intro x hx
  rw [diffPhase8] at hx
  rcases List.mem_filterMap.mp hx with ⟨tn, _, heq⟩
  split at heq
  · exact Option.noConfusion heq
  · exact ⟨_, (Option.some.inj heq).symm⟩

theorem first4_kinds (o : StateFile) (n : DatabaseSchema) :
    ∀ a ∈ diffPhase1 o n ++ diffPhase2 o n ++ diffPhase3 o n ++ diffPhase4 o n,
      isAddColumnOp a = false ∧ isAddPkOp a = false := by
  intro a ha
  rcases List.mem_append.mp ha with h | h4
  · rcases List.mem_append.mp h with h | h3
    · rcases List.mem_append.mp h with h1 | h2
      · obtain ⟨t, rfl⟩ := mem_diffPhase1_shape o n a h1
        exact ⟨rfl, rfl⟩
      · obtain ⟨w, x, y, z, rfl⟩ := mem_diffPhase2_shape o n a h2
        exact ⟨rfl, rfl⟩
    · obtain ⟨t, rfl⟩ := mem_diffPhase3_shape o n a h3
      exact ⟨rfl, rfl⟩
  · obtain ⟨w, x, y, z, rfl⟩ := mem_diffPhase4_shape o n a h4
    exact ⟨rfl, rfl⟩

theorem last4_no_droppk (o : StateFile) (n : DatabaseSchema) :
    ∀ a ∈ diffPhase5 o n ++ diffPhase6 o n ++ diffPhase7 o n ++ diffPhase8 o n,
      isDropPkOp a = false := by
  intro a ha
  rcases List.mem_append.mp ha with h | h8
  · rcases List.mem_append.mp h with h | h7
    · rcases List.mem_append.mp h with h5 | h6
      · obtain ⟨t, c, rfl⟩ := mem_diffPhase5_shape o n a h5
        rfl
      · obtain ⟨t, c, rfl⟩ := mem_diffPhase6_shape o n a h6
        rfl
    · obtain ⟨t, c, rfl⟩ := mem_diffPhase7_shape o n a h7
      rfl
  · obtain ⟨t, rfl⟩ := mem_diffPhase8_shape o n a h8
    rfl

theorem last3_no_addcol (o : StateFile) (n : DatabaseSchema) :
    ∀ a ∈ diffPhase6 o n ++ diffPhase7 o n ++ diffPhase8 o n,
      isAddColumnOp a = false := by
  intro a ha
  rcases List.mem_append.mp ha with h | h8
  · rcases List.mem_append.mp h with h6 | h7
    · obtain ⟨t, c, rfl⟩ := mem_diffPhase6_shape o n a h6
      rfl
    · obtain ⟨t, c, rfl⟩ := mem_diffPhase7_shape o n a h7
      rfl
  · obtain ⟨t, rfl⟩ := mem_diffPhase8_shape o n a h8
    rfl

theorem phase5_no_addpk (o : StateFile) (n : DatabaseSchema) :
    ∀ a ∈ diffPhase5 o n, isAddPkOp a = false := by
  intro a h5
  obtain ⟨t, c, rfl⟩ := mem_diffPhase5_shape o n a h5
  rfl

theorem getElem_lt_of_append_split {α : Type} (l1 l2 : List α) (P Q : α → Bool)
    (hP : ∀ a ∈ l2, P a = false) (hQ : ∀ a ∈ l1, Q a = false)
    (i j : Nat) (hi : i < (l1 ++ l2).length) (hj : j < (l1 ++ l2).length)
    (hPi : P ((l1 ++ l2)[i]) = true) (hQj : Q ((l1 ++ l2)[j]) = true) :
    i < j := by
  have hiL : i < l1.length := by
    by_contra hge
    push_neg at hge
    have hmem : (l1 ++ l2)[i] ∈ l2 := by
      rw [List.getElem_append_right hge]
      exact List.getElem_mem _
    have := hP _ hmem
    rw [hPi] at this
    exact Bool.noConfusion this
  have hjL : l1.length ≤ j := by
    by_contra hlt
    push_neg at hlt
    have hmem : (l1 ++ l2)[j] ∈ l1 := by
      rw [List.getElem_append_left hlt]
      exact List.getElem_mem _
    have := hQ _ hmem
    rw [hQj] at this
    exact Bool.noConfusion this
  omega

theorem get_lt_of_eq_append {α : Type} (l l1 l2 : List α) (hsplit : l = l1 ++ l2)
    (P Q : α → Bool) (hP : ∀ a ∈ l2, P a = false) (hQ : ∀ a ∈ l1, Q a = false)
    (i j : Fin l.length) (hPi : P (l.get i) = true) (hQj : Q (l.get j) = true) :
    i.val < j.val := by
  subst hsplit
  rw [List.get_eq_getElem] at hPi hQj
  exact getElem_lt_of_append_split l1 l2 P Q hP hQ i.val j.val i.isLt j.isLt hPi hQj

/-- C3 counterexample: a PK rename (old resolved PK `id`, new resolved PK
`uid`, with `uid` newly added) yields the sequence
`[drop_primary_key_constraint, add_column, add_primary_key_constraint,
drop_column]`: the `drop_primary_key_constraint` (phase 3) comes BEFORE the
`add_column` that creates the new PK column (phase 5), refuting the claim
that both constraint operations come strictly after that `add_column`. -/
theorem c3_counterexample :
    resolveStatePrimaryKey
      { columns := [("id", { type := "uuid", primaryKey := some true })] } = some "id" ∧
    resolveSchemaPrimaryKey
      { name := "users"
      , columns := [{ name := "uid", type := "uuid", primaryKey := some true }] } = some "uid" ∧
    (diffSchemas
      { version := 1
      , tables := [("users",
          { columns := [("id", { type := "uuid", primaryKey := some true })] })] }
      { tables := [("users",
          { name := "users"
          , columns := [{ name := "uid", type := "uuid", primaryKey := some true }] })] }).operations =
      [.drop_primary_key_constraint "users",
       .add_column "users" { name := "uid", type := "uuid", primaryKey := some true },
       .add_primary_key_constraint "users" "uid",
       .drop_column "users" "id"] := by
  refine ⟨by decide, by decide, by decide⟩

/-- C3 (amended): in every `diffSchemas` output, every
`drop_primary_key_constraint` comes strictly before every `add_column`
(phase 3 before phase 5), and every `add_column` comes strictly before
every `add_primary_key_constraint` (phase 5 before phase 6); in particular
`drop_primary_key_constraint` precedes `add_primary_key_constraint`. The
spec's claim that the constraint pair follows the `add_column` has the
first comparison reversed. -/
theorem c3_amended (o : StateFile) (n : DatabaseSchema) :
    (∀ i j : Fin (diffSchemas o n).operations.length,
      isDropPkOp ((diffSchemas o n).operations.get i) = true →
      isAddColumnOp ((diffSchemas o n).operations.get j) = true → i.val < j.val) ∧
    (∀ i j : Fin (diffSchemas o n).operations.length,
      isAddColumnOp ((diffSchemas o n).operations.get i) = true →
      isAddPkOp ((diffSchemas o n).operations.get j) = true → i.val < j.val) := by
  constructor
  · intro i j hPi hQj
    have hsplit : (diffSchemas o n).operations =
        (diffPhase1 o n ++ diffPhase2 o n ++ diffPhase3 o n ++ diffPhase4 o n) ++
        (diffPhase5 o n ++ diffPhase6 o n ++ diffPhase7 o n ++ diffPhase8 o n) := by
      simp only [diffSchemas, List.append_assoc]
    exact get_lt_of_eq_append _ _ _ hsplit isDropPkOp isAddColumnOp
      (last4_no_droppk o n) (fun a ha => (first4_kinds o n a ha).1) i j hPi hQj
  · intro i j hPi hQj
    have hsplit : (diffSchemas o n).operations =
        ((diffPhase1 o n ++ diffPhase2 o n ++ diffPhase3 o n ++ diffPhase4 o n) ++
          diffPhase5 o n) ++
        (diffPhase6 o n ++ diffPhase7 o n ++ diffPhase8 o n) := by
      simp only [diffSchemas, List.append_assoc]
    refine get_lt_of_eq_append _ _ _ hsplit isAddColumnOp isAddPkOp
      (last3_no_addcol o n) ?_ i j hPi hQj
    intro a ha
    rcases List.mem_append.mp ha with h | h5
    · exact (first4_kinds o n a h).2
    · exact phase5_no_addpk o n a h5

/-- C3 witness: the amended ordering theorem applied to the concrete PK
rename, discharging the kind hypotheses at indices 0, 1, 2. -/
theorem c3_amended_witness : (0 : Nat) < 1 ∧ (1 : Nat) < 2 := by
  have h := c3_amended
    { version := 1
    , tables := [("users",
        { columns := [("id", { type := "uuid", primaryKey := some true })] })] }
    { tables := [("users",
        { name := "users"
        , columns := [{ name := "uid", type := "uuid", primaryKey := some true }] })] }
  exact ⟨h.1 ⟨0, by decide⟩ ⟨1, by decide⟩ (by decide) (by decide),
         h.2 ⟨1, by decide⟩ ⟨2, by decide⟩ (by decide) (by decide)⟩

/-! ## C4: default-change detection (spec-modelled defaults phase) -/

theorem mem_commonTableNames {o : StateFile} {n : DatabaseSchema} {tn : String}
    {newT : Table} {oldT : StateTable}
    (hnew : lookupKey tn n.tables = some newT)
    (hold : lookupKey tn o.tables = some oldT) :
    tn ∈ commonTableNames o n := by
  have htnNew : tn ∈ n.tables.map Prod.fst :=
    List.mem_map.mpr ⟨(tn, newT), lookupKey_mem hnew, rfl⟩
  have htnOld : tn ∈ o.tables.map Prod.fst :=
    List.mem_map.mpr ⟨(tn, oldT), lookupKey_mem hold, rfl⟩
  rw [commonTableNames]
  refine List.mem_filter.mpr ⟨?_, ?_⟩
  · rw [getSortedNames, mem_sortNames, getTableNamesFromSchema, mem_jsSetDedup]
    exact htnNew
  · exact List.elem_iff.mpr
      (by rw [getTableNamesFromState, mem_jsSetDedup]; exact htnOld)

/-- C4: in the spec-modelled released diff engine, a column present in both
the old state and the new schema of a common table contributes a
`column_default_changed` operation (carrying the raw old/new defaults)
exactly when the two defaults differ under `normalizeDefault` equality. -/
theorem c4_default_change_detection
    (o : StateFile) (n : DatabaseSchema) (tn : String)
    (newT : Table) (oldT : StateTable) (col : Column) (oldC : StateColumn)
    (hnew : lookupKey tn n.tables = some newT)
    (hold : lookupKey tn o.tables = some oldT)
    (hcol : col ∈ newT.columns)
    (holdc : lookupKey col.name oldT.columns = some oldC) :
    Operation.column_default_changed tn col.name oldC.default col.default ∈
        (diffSchemasWithDefaults o n).operations ↔
      normalizeDefault oldC.default ≠ normalizeDefault col.default := by
  constructor
  · intro hmem
    simp only [diffSchemasWithDefaults, List.mem_append] at hmem
    rcases hmem with ((((((((h | h) | h) | h) | h) | h) | h) | h) | h)
    · obtain ⟨t, heq⟩ := mem_diffPhase1_shape o n _ h
      exact Operation.noConfusion heq
    · obtain ⟨a, b, c, d, heq⟩ := mem_diffPhase2_shape o n _ h
      exact Operation.noConfusion heq
    · rw [diffDefaultsPhase] at h
      rcases List.mem_flatMap.mp h with ⟨tn2, _, hmem2⟩
      split at hmem2
      · rcases List.mem_filterMap.mp hmem2 with ⟨c2, _, heq⟩
        split at heq
        · exact Option.noConfusion heq
        · rename_i prev hprev
          split at heq
          · rename_i hne2
            injection heq with he
            injection he with h1 h2 h3 h4
            rw [h3, h4] at hne2
            exact hne2
          · exact Option.noConfusion heq
      · exact absurd hmem2 (List.not_mem_nil _)
    · obtain ⟨t, heq⟩ := mem_diffPhase3_shape o n _ h
      exact Operation.noConfusion heq
    · obtain ⟨a, b, f, u, heq⟩ := mem_diffPhase4_shape o n _ h
      exact Operation.noConfusion heq
    · obtain ⟨t, c, heq⟩ := mem_diffPhase5_shape o n _ h
      exact Operation.noConfusion heq
    · obtain ⟨t, c, heq⟩ := mem_diffPhase6_shape o n _ h
      exact Operation.noConfusion heq
    · obtain ⟨t, c, heq⟩ := mem_diffPhase7_shape o n _ h
      exact Operation.noConfusion heq
    · obtain ⟨t, heq⟩ := mem_diffPhase8_shape o n _ h
      exact Operation.noConfusion heq
  · intro hne
    have hfn : (match lookupKey col.name oldT.columns with
        | none => none
        | some previousColumn =>
          if normalizeDefault previousColumn.default ≠ normalizeDefault col.default then
            some (Operation.column_default_changed tn col.name
              previousColumn.default col.default)
          else none) =
        some (Operation.column_default_changed tn col.name oldC.default col.default) := by
      simp only [holdc]
      rw [if_pos hne]
    have hd : Operation.column_default_changed tn col.name oldC.default col.default ∈
        diffDefaultsPhase o n := by
      rw [diffDefaultsPhase]
      refine List.mem_flatMap.mpr ⟨tn, mem_commonTableNames hnew hold, ?_⟩
      simp only [hnew, hold]
      exact List.mem_filterMap.mpr ⟨col, hcol, hfn⟩
    simp only [diffSchemasWithDefaults, List.mem_append]
    tauto

/-- C4 witness: the detection theorem at a concrete changed default
(`'1'` to `'2'` on users.email). -/
theorem c4_default_change_detection_witness :
    Operation.column_default_changed "users" "email" (some "1") (some "2") ∈
      (diffSchemasWithDefaults
        { version := 1
        , tables := [("users",
            { columns := [("email", { type := "text", default := some "1" })] })] }
        { tables := [("users",
            { name := "users"
            , columns := [{ name := "email", type := "text", default := some "2" }] })] }).operations :=
  (c4_default_change_detection
    { version := 1
    , tables := [("users",
        { columns := [("email", { type := "text", default := some "1" })] })] }
    { tables := [("users",
        { name := "users"
        , columns := [{ name := "email", type := "text", default := some "2" }] })] }
    "users"
    { name := "users"
    , columns := [{ name := "email", type := "text", default := some "2" }] }
    { columns := [("email", { type := "text", default := some "1" })] }
    { name := "email", type := "text", default := some "2" }
    { type := "text", default := some "1" }
    (by decide) (by decide) (by decide) (by decide)).mpr (by decide)

end SchemaForge
